import Mathlib

/-!
Verification of the changelog text-transformation engine and version-bump
logic of the `release-init` repository.

The definitions below are shallow embeddings of:
  * the version-bump decision logic of `tools/release.ts`
    (also present in `src/main.ts`), built on `@std/semver`'s
    `parse` / `format`;
  * the section extractor of `tools/get-changelog.ts`;
  * the header updater of `tools/update-changelog.ts`.

JavaScript regular expressions are embedded as executable backtracking
matchers specialised to the concrete patterns appearing in the source
(`hdrRx`, `unreleasedRx`, `versionRx`, heading / boundary / title tests),
with JavaScript's `\s`, `.` and case-insensitive (ASCII) semantics made
explicit.
-/

namespace ReleaseInit

/-! ## JavaScript character classes -/

/-- JavaScript `\s` (WhiteSpace ∪ LineTerminator), as used by the `i`-flagged
header regexes and by `String.prototype.trim`. -/
def jsWs (c : Char) : Bool :=
  c = ' ' || c = '\t' || c = '\n' || c = '\x0b' || c = '\x0c' || c = '\r' ||
  c = '\u00a0' || c = '\u1680' ||
  ('\u2000' ≤ c && c ≤ '\u200a') ||
  c = '\u2028' || c = '\u2029' || c = '\u202f' || c = '\u205f' ||
  c = '\u3000' || c = '\ufeff'

/-- JavaScript `.` without the `s` flag: any character except a line
terminator. -/
def jsDot (c : Char) : Bool :=
  !(c = '\n' || c = '\r' || c = '\u2028' || c = '\u2029')

/-- ASCII lower-casing, modelling the case canonicalisation performed by the
`i` flag on the ASCII version/`Unreleased` tokens of the source regexes. -/
def lowerA (c : Char) : Char :=
  if 'A' ≤ c ∧ c ≤ 'Z' then Char.ofNat (c.toNat + 32) else c

/-- Case-insensitive character comparison (ASCII folding). -/
def charCI (a b : Char) : Bool := lowerA a = lowerA b

def isDigitC (c : Char) : Bool := '0' ≤ c && c ≤ '9'

/-- Characters allowed in a semver prerelease / build identifier. -/
def isIdentC (c : Char) : Bool :=
  isDigitC c || ('a' ≤ c && c ≤ 'z') || ('A' ≤ c && c ≤ 'Z') || c = '-'

/-! ## Small helpers shared by the embeddings -/

/-- Explicit `Option` alternative (the backtracking "or" of the regex
matchers); first success wins, mirroring regex preference order. -/
def oor : Option α → Option α → Option α
  | some a, _ => some a
  | none, b => b

theorem oor_eq_some {a b : Option α} {x : α} :
    oor a b = some x ↔ a = some x ∨ (a = none ∧ b = some x) := by
  cases a <;> simp [oor]

theorem oor_isSome {a b : Option α} :
    (oor a b).isSome = (a.isSome || b.isSome) := by
  cases a <;> simp [oor]

/-- Index of the first element satisfying `p` (the `for … break` /
`findIndex` loops of the source). -/
def firstIdx? (p : α → Bool) : List α → Option Nat
  | [] => none
  | a :: l => if p a then some 0 else (firstIdx? p l).map (· + 1)

theorem firstIdx?_eq_some {p : α → Bool} {l : List α} {i : Nat}
    (h : firstIdx? p l = some i) :
    ∃ a, l[i]? = some a ∧ p a = true ∧
      ∀ j, j < i → ∀ b, l[j]? = some b → p b = false := by
  induction l generalizing i with
  | nil => simp [firstIdx?] at h
  | cons x xs ih =>
    by_cases hx : p x
    · simp [firstIdx?, hx] at h
      subst h
      exact ⟨x, by simp, hx, fun j hj b hb => absurd hj (by omega)⟩
    · simp [firstIdx?, hx] at h
      obtain ⟨i', hi', rfl⟩ := h
      obtain ⟨a, ha, hpa, hlt⟩ := ih hi'
      refine ⟨a, by simpa using ha, hpa, ?_⟩
      intro j hj b hb
      cases j with
      | zero =>
        simp at hb; subst hb
        exact eq_false_of_ne_true hx
      | succ j' =>
        exact hlt j' (by omega) b (by simpa using hb)

theorem firstIdx?_eq_none {p : α → Bool} {l : List α} {j : Nat} {b : α}
    (h : firstIdx? p l = none) (hb : l[j]? = some b) : p b = false := by
  induction l generalizing j with
  | nil => simp at hb
  | cons x xs ih =>
    by_cases hx : p x
    · simp [firstIdx?, hx] at h
    · simp [firstIdx?, hx] at h
      cases j with
      | zero => simp at hb; subst hb; exact eq_false_of_ne_true hx
      | succ j' => exact ih h (by simpa using hb)

theorem firstIdx?_complete {p : α → Bool} {l : List α} {i : Nat} {a : α}
    (ha : l[i]? = some a) (hpa : p a = true)
    (hlt : ∀ j, j < i → ∀ b, l[j]? = some b → p b = false) :
    firstIdx? p l = some i := by
  induction l generalizing i with
  | nil => simp at ha
  | cons x xs ih =>
    cases i with
    | zero =>
      simp at ha; subst ha
      simp [firstIdx?, hpa]
    | succ i' =>
      have hx : p x = false := hlt 0 (by omega) x (by simp)
      simp [firstIdx?, hx]
      exact ih (by simpa using ha)
        (fun j hj b hb => hlt (j + 1) (by omega) b (by simpa using hb))

theorem firstIdx?_bound {p : α → Bool} {l : List α} {i : Nat}
    (h : firstIdx? p l = some i) : i < l.length := by
  obtain ⟨a, ha, -⟩ := firstIdx?_eq_some h
  exact List.getElem?_eq_some.mp ha |>.1

/-! ## Semantic versions (`@std/semver` as used by `tools/release.ts`)

`semver.parse` is modelled on the strict SemVer 2.0 grammar used by the
library (derived from node-semver's `FULL` pattern): optional leading `v`,
dot-separated numeric `MAJOR.MINOR.PATCH` without leading zeros, an optional
`-prerelease` (dot-separated identifiers; purely numeric identifiers must have
no leading zeros and become numbers) and an optional `+build` (dot-separated
alphanumeric identifiers kept as strings).  `semver.format` renders
`MAJOR.MINOR.PATCH[-prerelease][+build]`. -/

/-- A prerelease identifier: numeric identifiers are compared numerically and
stored as numbers by `@std/semver`, other identifiers as strings. -/
inductive PreId where
  | num (n : Nat)
  | str (s : String)
deriving DecidableEq, Repr

structure SemVer where
  major : Nat
  minor : Nat
  patch : Nat
  prerelease : List PreId
  build : List String
deriving DecidableEq, Repr

/-- Longest prefix run of characters satisfying `p`, plus the rest. -/
def takeRun (p : Char → Bool) : List Char → (List Char × List Char)
  | [] => ([], [])
  | c :: rest =>
    if p c then
      let (r, t) := takeRun p rest
      (c :: r, t)
    else ([], c :: rest)

def natOfDigits (ds : List Char) : Nat :=
  ds.foldl (fun acc c => acc * 10 + (c.toNat - '0'.toNat)) 0

/-- The bound `Number.MAX_SAFE_INTEGER` that `@std/semver` enforces on the
numeric components. -/
def maxSafeInteger : Nat := 9007199254740991

/-- Parse one numeric component (`0|[1-9]\d*`, bounded by
`MAX_SAFE_INTEGER`). -/
def parseNumCore (l : List Char) : Option (Nat × List Char) :=
  let (ds, rest) := takeRun isDigitC l
  if ds = [] then none
  else if ds.head? = some '0' ∧ ds.length > 1 then none
  else if natOfDigits ds ≤ maxSafeInteger then some (natOfDigits ds, rest)
  else none

/-- Parse one prerelease identifier
(`0|[1-9]\d*|\d*[a-zA-Z-][0-9a-zA-Z-]*`). -/
def parsePreId (l : List Char) : Option (PreId × List Char) :=
  let (cs, rest) := takeRun isIdentC l
  if cs = [] then none
  else if cs.all isDigitC then
    if cs.head? = some '0' ∧ cs.length > 1 then none
    else some (.num (natOfDigits cs), rest)
  else some (.str (String.mk cs), rest)

/-- Parse one build identifier (`[0-9A-Za-z-]+`). -/
def parseBuildId (l : List Char) : Option (String × List Char) :=
  let (cs, rest) := takeRun isIdentC l
  if cs = [] then none else some (String.mk cs, rest)

/-- Parse a dot-separated list of identifiers using `one`. -/
def parseDotSep (one : List Char → Option (β × List Char)) :
    List Char → Nat → Option (List β × List Char)
  | _, 0 => none
  | l, fuel + 1 =>
    match one l with
    | none => none
    | some (b, rest) =>
      match rest with
      | '.' :: rest2 =>
        match parseDotSep one rest2 fuel with
        | some (bs, rest3) => some (b :: bs, rest3)
        | none => none
      | _ => some ([b], rest)

/-- Model of `semver.parse`, as `Option` (the library throws on `undefined`). -/
def parseSemVer (s : String) : Option SemVer := do
  let l := s.data
  let l := match l with
    | 'v' :: rest => rest
    | _ => l
  let (major, l) ← parseNumCore l
  let l ← match l with | '.' :: r => some r | _ => none
  let (minor, l) ← parseNumCore l
  let l ← match l with | '.' :: r => some r | _ => none
  let (patch, l) ← parseNumCore l
  let (pre, l) ←
    match l with
    | '-' :: r =>
      match parseDotSep parsePreId r (r.length + 1) with
      | some (ids, rest) => some (ids, rest)
      | none => none
    | _ => some ([], l)
  let (build, l) ←
    match l with
    | '+' :: r =>
      match parseDotSep parseBuildId r (r.length + 1) with
      | some (ids, rest) => some (ids, rest)
      | none => none
    | _ => some ([], l)
  if l = [] then
    some ⟨major, minor, patch, pre, build⟩
  else none

def preIdStr : PreId → String
  | .num n => Nat.repr n
  | .str s => s

def joinDot : List String → String
  | [] => ""
  | [s] => s
  | s :: rest => s ++ "." ++ joinDot rest

/-- Model of `semver.format`: `MAJOR.MINOR.PATCH[-prerelease][+build]`. -/
def formatSemVer (v : SemVer) : String :=
  (fun primary pre bld =>
      (fun rel => if bld = "" then rel else rel ++ "+" ++ bld)
        (if pre = "" then primary else primary ++ "-" ++ pre))
    (Nat.repr v.major ++ "." ++ Nat.repr v.minor ++ "." ++ Nat.repr v.patch)
    (joinDot (v.prerelease.map preIdStr))
    (joinDot v.build)

/-! ## Version-bump decision logic (`tools/release.ts`, "Calculate next
version"):

    if (["major", "minor", "patch"].includes(versionArg)) {
      next = semver.parse(meta.version);
      if (versionArg === "major") { next.major++; next.minor = 0; next.patch = 0; }
      else if (versionArg === "minor") { next.minor++; next.patch = 0; }
      else { next.patch++; }
      next.prerelease = [];
    } else {
      try { next = semver.parse(versionArg); }
      catch { exitError(`Invalid version: ${versionArg}`); }
    }
-/

/-- The next-version computation of `tools/release.ts` (`Except` models the
`exitError` / thrown-`TypeError` failure paths). -/
def computeNext (currentStr versionArg : String) : Except String SemVer :=
  match parseSemVer currentStr with
  | none => .error ("Cannot parse version: " ++ currentStr)
  | some cur =>
    if versionArg = "major" ∨ versionArg = "minor" ∨ versionArg = "patch" then
      if versionArg = "major" then
        .ok ⟨cur.major + 1, 0, 0, [], cur.build⟩
      else if versionArg = "minor" then
        .ok ⟨cur.major, cur.minor + 1, 0, [], cur.build⟩
      else
        .ok ⟨cur.major, cur.minor, cur.patch + 1, [], cur.build⟩
    else
      match parseSemVer versionArg with
      | some v => .ok v
      | none => .error ("Invalid version: " ++ versionArg)

/-! ## The shared header-matching primitive

Both changelog tools build their matchers from the same shape
(`escapeForRegex` makes the version a literal token):

    get-changelog.ts  hdrRx        = ^#{1,6}\s*\[?v?TOK\]?(?:\s+-\s+\d{4}-\d{2}-\d{2})?   (i)
    get-changelog.ts  unreleasedRx = ^#{1,6}\s*\[?Unreleased\]?                            (i)
    update-changelog.ts versionRx  = ^(#{1,6}\s*)(\[?)(v?TOK)(\]?)(.*)$                    (i)
    update-changelog.ts unreleasedRx = ^(#{1,6}\s*)(\[?)(Unreleased)(\]?)(.*)$             (i)

The common prefix `#{1,6}\s*\[?(v?)TOK(\]?)` is embedded as a staged
backtracking matcher in continuation-passing style; each stage tries its
alternatives in the engine's preference order (greedy repetition, optional
elements consume-first), so the first overall success is the regex match. -/

/-- Model of `versionArg.replace(/^v/, "")` on character lists: removes one leading
lowercase `v` (the pattern has no `i` flag). -/
def stripLowerVL (l : List Char) : List Char :=
  match l with
  | c :: rest => if c = 'v' then rest else c :: rest
  | [] => []

/-- Model of `versionArg.replace(/^v/, "")` — the version normalisation of both
changelog tools. -/
def stripLowerV (s : String) : String := String.mk (stripLowerVL s.data)

/-- Pointwise case-insensitive equality of character lists. -/
def ciEq : List Char → List Char → Bool
  | [], [] => true
  | a :: as, b :: bs => charCI a b && ciEq as bs
  | _, _ => false

/-- Consume a case-insensitive occurrence of `tok` from the front of `l`,
returning the consumed characters (with the line's casing) and the rest. -/
def ciConsume : List Char → List Char → Option (List Char × List Char)
  | [], l => some ([], l)
  | _ :: _, [] => none
  | t :: ts, c :: cs =>
    if charCI t c then (ciConsume ts cs).map (fun p => (c :: p.1, p.2))
    else none

/-- Stage for `\]?` (optional element: consume-first), then the
continuation `k`. -/
def stage4 (k : List Char → Option β) (l : List Char) :
    Option (List Char × β) :=
  match l with
  | c :: rest =>
    if c = ']' then
      oor ((k rest).map (fun b => ([c], b)))
        ((k (c :: rest)).map (fun b => (([] : List Char), b)))
    else (k (c :: rest)).map (fun b => (([] : List Char), b))
  | [] => (k []).map (fun b => (([] : List Char), b))

/-- Stage for the literal token (case-insensitively), then `\]?` and `k`.
Returns (token characters as in the line, `\]?` capture, continuation
value). -/
def stage3 (tok : List Char) (k : List Char → Option β) (l : List Char) :
    Option (List Char × List Char × β) :=
  (ciConsume tok l).bind fun p =>
    (stage4 k p.2).map (fun q => (p.1, q.1, q.2))

/-- Stage for `v?` (present only in the version pattern, `i`-flagged so it
accepts `v` or `V`; consume-first). Returns the full group-3 capture
(`v?TOK` as written in the line). -/
def stageV (allowV : Bool) (tok : List Char) (k : List Char → Option β)
    (l : List Char) : Option (List Char × List Char × β) :=
  if allowV then
    match l with
    | c :: rest =>
      if c = 'v' ∨ c = 'V' then
        oor ((stage3 tok k rest).map (fun p => (c :: p.1, p.2.1, p.2.2)))
          (stage3 tok k (c :: rest))
      else stage3 tok k (c :: rest)
    | [] => stage3 tok k []
  else stage3 tok k l

/-- Stage for `\[?` (consume-first). Returns (`\[?` capture, group 3,
`\]?` capture, continuation value). -/
def stageBr (allowV : Bool) (tok : List Char) (k : List Char → Option β)
    (l : List Char) : Option (List Char × List Char × List Char × β) :=
  match l with
  | c :: rest =>
    if c = '[' then
      oor ((stageV allowV tok k rest).map (fun p => ([c], p)))
        ((stageV allowV tok k (c :: rest)).map
          (fun p => (([] : List Char), p)))
    else (stageV allowV tok k (c :: rest)).map
      (fun p => (([] : List Char), p))
  | [] => (stageV allowV tok k []).map (fun p => (([] : List Char), p))

/-- Stage for `\s*` (greedy). Returns the whitespace consumed and the inner
result. -/
def stageWs (inner : List Char → Option γ) : List Char → Option (List Char × γ)
  | [] => (inner []).map (fun g => (([] : List Char), g))
  | c :: rest =>
    if jsWs c then
      oor ((stageWs inner rest).map (fun p => (c :: p.1, p.2)))
        ((inner (c :: rest)).map (fun g => (([] : List Char), g)))
    else (inner (c :: rest)).map (fun g => (([] : List Char), g))

/-- Stage for `#{1,6}` (greedy, bounded); `n` counts the characters already
consumed. Returns the hash characters consumed and the inner result. -/
def stageHash (inner : List Char → Option γ) : Nat → List Char →
    Option (List Char × γ)
  | n, [] => if 1 ≤ n then (inner []).map (fun g => (([] : List Char), g)) else none
  | n, c :: rest =>
    oor
      (if n < 6 ∧ c = '#' then
        (stageHash inner (n + 1) rest).map (fun p => ('#' :: p.1, p.2))
      else none)
      (if 1 ≤ n then (inner (c :: rest)).map (fun g => (([] : List Char), g))
      else none)

/-- The shared matcher `^(#{1,6}\s*)(\[?)((v?)TOK)(\]?)` with continuation
`k` deciding what the rest of the line must satisfy. On success, returns
the five pieces (group 1 = hashes ++ whitespace, group 2, group 3, group 4,
continuation value). -/
def scanHdr (allowV : Bool) (tok : List Char) (k : List Char → Option β)
    (line : List Char) :
    Option (List Char × List Char × List Char × List Char × β) :=
  (stageHash (fun l1 => stageWs (fun l2 => stageBr allowV tok k l2) l1) 0
      line).map
    (fun p => (p.1 ++ p.2.1, p.2.2))

/-- Model of `hdrRx.test(line)` of `get-changelog.ts` (everything after the token is
optional, so the test succeeds exactly when the mandatory prefix matches). -/
def hdrTest (version : String) (line : String) : Bool :=
  (scanHdr true version.data (fun _ => some ()) line.data).isSome

/-- Model of `unreleasedRx.test(line)` of `get-changelog.ts`
(`/^#{1,6}\s*\[?Unreleased\]?/i`). -/
def unreleasedTestGC (line : String) : Bool :=
  (scanHdr false "Unreleased".data (fun _ => some ()) line.data).isSome

/-- The anchored group matcher of `update-changelog.ts`
(`^(#{1,6}\s*)(\[?)(v?TOK)(\]?)(.*)$` for the version pattern, and the same
shape with the literal `Unreleased` token). The `(.*)$` tail requires the
rest of the line to contain no line terminator and captures it as
group 5. -/
def matchHdr (allowV : Bool) (tok : List Char) (line : List Char) :
    Option (List Char × List Char × List Char × List Char × List Char) :=
  scanHdr allowV tok (fun rest => if rest.all jsDot then some rest else none)
    line

/-! ## Splitting and joining document text

Both tools read the document as text, split on `/\r?\n/`, operate on the
line array and (for the updater) join with `"\n"`. -/

/-- Finaliser of one split piece from its reversed accumulator: the `\r?`
of the separator removes a single `\r` directly before the `\n`. -/
def dropTrailCR (acc : List Char) : List Char :=
  match acc with
  | c :: a => if c = '\r' then a.reverse else (c :: a).reverse
  | [] => []

/-- Model of `text.split(/\r?\n/)` on character lists: cut at every `\n`, dropping a
single `\r` that immediately precedes it. `acc` holds the current line in
reverse. -/
def splitGo : List Char → List Char → List (List Char)
  | [], acc => [acc.reverse]
  | c :: rest, acc =>
    if c = '\n' then dropTrailCR acc :: splitGo rest []
    else splitGo rest (c :: acc)

/-- Model of `text.split(/\r?\n/)` as a list of line strings. -/
def splitLinesJS (s : String) : List String :=
  (splitGo s.data []).map String.mk

/-- Model of `lines.join("\n")`. -/
def joinN : List String → String
  | [] => ""
  | [l] => l
  | l :: rest => l ++ "\n" ++ joinN rest

/-- Model of `String.prototype.trim` (strips JS whitespace from both ends). -/
def jsTrim (s : String) : String :=
  String.mk (((s.data.dropWhile jsWs).reverse.dropWhile jsWs).reverse)

/-! ## `tools/get-changelog.ts` -/

/-- Count of leading `#` characters. -/
def leadingHashes : List Char → Nat
  | '#' :: rest => leadingHashes rest + 1
  | _ => 0

/-- Model of `startLine.match(/^(#{1,6})/)?.[1].length ?? 2` — the heading level
recorded for the section start line. -/
def startLevelOf (line : String) : Nat :=
  if leadingHashes line.data = 0 then 2 else min (leadingHashes line.data) 6

/-- Model of `lines[i].match(/^(#{1,6})\s+\S/)`: the boundary-scan heading detector;
`some level` when the line is a heading of that level. -/
def boundaryLevel? (line : String) : Option Nat :=
  if 1 ≤ leadingHashes line.data ∧ leadingHashes line.data ≤ 6 then
    match line.data.drop (leadingHashes line.data) with
    | c :: _ =>
      if jsWs c ∧ (line.data.drop (leadingHashes line.data)).any
          (fun d => !jsWs d) then
        some (leadingHashes line.data)
      else none
    | [] => none
  else none

/-- Does this line terminate a section that started at heading level `L`
("stop at same or higher level heading")? -/
def stopsSection (L : Nat) (line : String) : Bool :=
  match boundaryLevel? line with
  | some lv => decide (lv ≤ L)
  | none => false

/-- The end-of-section scan of `get-changelog.ts`: first index after `start`
whose heading level is `≤` the start level, or `lines.length`. -/
def sectionEnd (lines : List String) (start : Nat) : Nat :=
  match firstIdx? (stopsSection (startLevelOf (lines.getD start "")))
      (lines.drop (start + 1)) with
  | some k => start + 1 + k
  | none => lines.length

/-- Tail check `https?:\/\/.+$` of the link-reference pattern (with the
`s` flag, `.` matches anything, so only nonemptiness after `//` is
required). -/
def httpToEnd : List Char → Bool
  | 'h' :: 't' :: 't' :: 'p' :: 's' :: ':' :: '/' :: '/' :: rest =>
    !rest.isEmpty
  | 'h' :: 't' :: 't' :: 'p' :: ':' :: '/' :: '/' :: rest => !rest.isEmpty
  | _ => false

/-- Middle check `\s+` then `https?://…` of the link-reference pattern. -/
def wsThenHttp : List Char → Bool
  | [] => false
  | c :: rest => jsWs c && (httpToEnd rest || wsThenHttp rest)

/-- Does the suffix `l` begin a trailing link-reference block, i.e. match
`/\n\n\[[\d.]+\]:\s+https?:\/\/.+$/s` through to the end of the
string? -/
def linkRefAt (l : List Char) : Bool :=
  match l with
  | '\n' :: '\n' :: '[' :: rest =>
    match takeRun (fun c => isDigitC c || c = '.') rest with
    | (_ :: _, ']' :: ':' :: rest3) => wsThenHttp rest3
    | _ => false
  | _ => false

/-- Index of the first position where the link-reference pattern matches. -/
def linkRefIdx : List Char → Option Nat
  | [] => none
  | l@(_ :: rest) =>
    if linkRefAt l then some 0 else (linkRefIdx rest).map (· + 1)

/-- Model of `content.replace(/\n\n\[[\d.]+\]:\s+https?:\/\/.+$/s, "")`: the matched
substring always extends to the end of the string, so replacing it truncates
there. -/
def stripLinkRef (s : String) : String :=
  match linkRefIdx s.data with
  | some p => String.mk (s.data.take p)
  | none => s

/-- The section text assembled for a section starting at `start`:
`lines.slice(start, end).join("\n").trim()` followed by the
link-reference strip. -/
def sectionAt (lines : List String) (start : Nat) : String :=
  stripLinkRef (jsTrim (joinN ((lines.drop start).take
    (sectionEnd lines start - start))))

/-- The not-found sentinel of `get-changelog.ts`. -/
def notFoundMsg (version : String) : String :=
  "No changelog entry found for version " ++ version ++
    " and no 'Unreleased' section present."

/-- Model of `get-changelog.ts` on an already-split document: find the first line
matching `hdrRx`, fall back to the first `unreleasedRx` line, else the
sentinel message. -/
def extractFromLines (lines : List String) (versionArg : String) : String :=
  match
    (match firstIdx? (hdrTest (stripLowerV versionArg)) lines with
      | some i => some i
      | none => firstIdx? unreleasedTestGC lines) with
  | none => notFoundMsg (stripLowerV versionArg)
  | some s => sectionAt lines s

/-- Model of `get-changelog.ts` on the raw document text. -/
def extractChangelogSection (documentText versionArg : String) : String :=
  extractFromLines (splitLinesJS documentText) versionArg

/-! ## `tools/update-changelog.ts` -/

structure UpdateResult where
  lines : List String
  created : Bool
deriving DecidableEq, Repr

/-- Model of `versionRx.test(line)` of `update-changelog.ts`. -/
def vTestU (version : String) (line : String) : Bool :=
  (matchHdr true version.data line.data).isSome

/-- Model of `unreleasedRx.test(line)` of `update-changelog.ts`. -/
def uTestU (line : String) : Bool :=
  (matchHdr false "Unreleased".data line.data).isSome

/-- The replacement `` `${prefix}[${tok}] - ${today}` `` building the
rewritten header line. -/
def canonicalHeader (pre : List Char) (tok : List Char) (today : String) :
    String :=
  String.mk pre ++ "[" ++ String.mk tok ++ "] - " ++ today

/-- Model of `/^#\s+/.test(line)`: the main-title detector of the synthesis branch. -/
def isTitleLine (line : String) : Bool :=
  match line.data with
  | '#' :: c :: _ => jsWs c
  | _ => false

/-- Model of `lines[insertIndex].trim() === ""`. -/
def blankLine (line : String) : Bool := line.data.all jsWs

/-- Structural helper for `skipBlanks`: the fuel equals
`lines.length - j`, so `fuel = 0` is exactly `¬ j < lines.length`. -/
def skipBlanksGo (lines : List String) : Nat → Nat → Nat
  | 0, j => j
  | fuel + 1, j =>
    if blankLine (lines.getD j "") then skipBlanksGo lines fuel (j + 1)
    else j

/-- The `while (insertIndex < lines.length && lines[insertIndex].trim() ===
"") insertIndex++` loop. -/
def skipBlanks (lines : List String) (j : Nat) : Nat :=
  skipBlanksGo lines (lines.length - j) j

/-- The insertion-point computation of the synthesis branch: first non-blank
line after the first `# ` title, or 0 if no title exists. -/
def insertIndexOf (lines : List String) : Nat :=
  match firstIdx? isTitleLine lines with
  | some i => skipBlanks lines (i + 1)
  | none => 0

/-- The synthesized section
`["", "## [v] - d", "", "### Added", "", "- Initial release", ""]`. -/
def newSectionLines (version today : String) : List String :=
  ["", "## [" ++ version ++ "] - " ++ today, "", "### Added", "",
    "- Initial release", ""]

/-- Model of `update-changelog.ts` on an already-split document (`today` is the
`YYYY-MM-DD` date string the script computes). -/
def updateChangelogLines (lines : List String) (versionArg today : String) :
    UpdateResult :=
  match firstIdx? (vTestU (stripLowerV versionArg)) lines with
  | some i =>
    ⟨lines.set i
      (match matchHdr true (stripLowerV versionArg).data
          ((lines.getD i "").data) with
        | some (g1, _, g3, _, _) => canonicalHeader g1 (stripLowerVL g3) today
        | none => lines.getD i ""), false⟩
  | none =>
    match firstIdx? uTestU lines with
    | some i =>
      ⟨lines.set i
        (match matchHdr false "Unreleased".data ((lines.getD i "").data) with
          | some (g1, _, _, _, _) =>
            canonicalHeader g1 (stripLowerV versionArg).data today
          | none => lines.getD i ""), false⟩
    | none =>
      ⟨lines.take (insertIndexOf lines) ++
        newSectionLines (stripLowerV versionArg) today ++
        lines.drop (insertIndexOf lines), true⟩

/-- Model of `update-changelog.ts` on the raw document text: split, transform, join
(the written file content plus the created flag). -/
def updateChangelogText (documentText versionArg today : String) :
    String × Bool :=
  (joinN (updateChangelogLines (splitLinesJS documentText) versionArg
      today).lines,
    (updateChangelogLines (splitLinesJS documentText) versionArg
      today).created)

/-! ## Soundness of the staged matcher

On success the matcher decomposes the line into its capture groups; the
lemmas below recover the shape of each group. -/

theorem ciConsume_sound {tok l cs rest : List Char}
    (h : ciConsume tok l = some (cs, rest)) :
    l = cs ++ rest ∧ ciEq tok cs = true := by
  induction tok generalizing l cs rest with
  | nil =>
    simp [ciConsume] at h
    obtain ⟨rfl, rfl⟩ := h
    simp [ciEq]
  | cons t ts ih =>
    cases l with
    | nil => simp [ciConsume] at h
    | cons c cs' =>
      by_cases hc : charCI t c
      · simp only [ciConsume, if_pos hc, Option.map_eq_some'] at h
        obtain ⟨⟨p1, p2⟩, hp, heq⟩ := h
        simp only [Prod.mk.injEq] at heq
        obtain ⟨hcs, hrest⟩ := heq
        obtain ⟨hl, hci⟩ := ih hp
        subst hcs hrest
        constructor
        · simpa using congrArg (c :: ·) hl
        · simp [ciEq, hc, hci]
      · simp [ciConsume, hc] at h

theorem ciConsume_complete {tok cs : List Char} (rest : List Char)
    (h : ciEq tok cs = true) :
    ciConsume tok (cs ++ rest) = some (cs, rest) := by
  induction tok generalizing cs with
  | nil =>
    cases cs with
    | nil => simp [ciConsume]
    | cons c cs' => simp [ciEq] at h
  | cons t ts ih =>
    cases cs with
    | nil => simp [ciEq] at h
    | cons c cs' =>
      simp [ciEq] at h
      simp [ciConsume, h.1, ih h.2]

theorem stage4_sound {k : List Char → Option β} {l g4 : List Char} {b : β}
    (h : stage4 k l = some (g4, b)) :
    ∃ rest, l = g4 ++ rest ∧ k rest = some b ∧ (g4 = [']'] ∨ g4 = []) := by
  cases l with
  | nil =>
    simp only [stage4, Option.map_eq_some'] at h
    obtain ⟨b', hb', heq⟩ := h
    simp only [Prod.mk.injEq] at heq
    obtain ⟨h4, hbb⟩ := heq
    subst hbb
    exact ⟨[], by simp [← h4], hb', Or.inr h4.symm⟩
  | cons c rest =>
    by_cases hc : c = ']'
    · simp only [stage4, if_pos hc] at h
      subst hc
      rw [oor_eq_some] at h
      rcases h with h | ⟨-, h⟩
      · rw [Option.map_eq_some'] at h
        obtain ⟨b', hb', heq⟩ := h
        simp only [Prod.mk.injEq] at heq
        obtain ⟨h4, hbb⟩ := heq
        subst hbb
        exact ⟨rest, by simp [← h4], hb', Or.inl h4.symm⟩
      · rw [Option.map_eq_some'] at h
        obtain ⟨b', hb', heq⟩ := h
        simp only [Prod.mk.injEq] at heq
        obtain ⟨h4, hbb⟩ := heq
        subst hbb
        exact ⟨']' :: rest, by simp [← h4], hb', Or.inr h4.symm⟩
    · simp only [stage4, if_neg hc, Option.map_eq_some'] at h
      obtain ⟨b', hb', heq⟩ := h
      simp only [Prod.mk.injEq] at heq
      obtain ⟨h4, hbb⟩ := heq
      subst hbb
      exact ⟨c :: rest, by simp [← h4], hb', Or.inr h4.symm⟩

theorem stage3_sound {tok : List Char} {k : List Char → Option β}
    {l cs g4 : List Char} {b : β}
    (h : stage3 tok k l = some (cs, g4, b)) :
    ∃ rest2, l = cs ++ g4 ++ rest2 ∧ ciEq tok cs = true ∧
      (g4 = [']'] ∨ g4 = []) ∧ k rest2 = some b := by
  unfold stage3 at h
  rw [Option.bind_eq_some] at h
  obtain ⟨⟨cs', rest'⟩, hci, hmap⟩ := h
  rw [Option.map_eq_some'] at hmap
  obtain ⟨⟨g4', b'⟩, hst4, heq⟩ := hmap
  simp only [Prod.mk.injEq] at heq
  obtain ⟨rfl, rfl, rfl⟩ := heq
  obtain ⟨hl, hciq⟩ := ciConsume_sound hci
  obtain ⟨rest2, hrest, hk, hshape⟩ := stage4_sound hst4
  have hrest' : rest' = g4' ++ rest2 := hrest
  exact ⟨rest2, by simp [hl, hrest'], hciq, hshape, hk⟩

theorem stageV_sound {allowV : Bool} {tok : List Char}
    {k : List Char → Option β} {l g3 g4 : List Char} {b : β}
    (h : stageV allowV tok k l = some (g3, g4, b)) :
    ∃ opt cs rest2, g3 = opt ++ cs ∧
      (opt = [] ∨ opt = ['v'] ∨ opt = ['V']) ∧ ciEq tok cs = true ∧
      l = g3 ++ g4 ++ rest2 ∧ (g4 = [']'] ∨ g4 = []) ∧ k rest2 = some b := by
  cases allowV with
  | false =>
    simp only [stageV, Bool.false_eq_true, if_false] at h
    obtain ⟨rest2, hl, hciq, hshape, hk⟩ := stage3_sound h
    exact ⟨[], g3, rest2, by simp, Or.inl rfl, hciq, hl, hshape, hk⟩
  | true =>
    cases l with
    | nil =>
      simp only [stageV, if_true] at h
      obtain ⟨rest2, hl, hciq, hshape, hk⟩ := stage3_sound h
      exact ⟨[], g3, rest2, by simp, Or.inl rfl, hciq, hl, hshape, hk⟩
    | cons c rest =>
      by_cases hvc : c = 'v' ∨ c = 'V'
      · simp only [stageV, if_true, if_pos hvc] at h
        rw [oor_eq_some] at h
        rcases h with h | ⟨-, h⟩
        · rw [Option.map_eq_some'] at h
          obtain ⟨⟨cs0, g40, b0⟩, hst3, heq⟩ := h
          simp only [Prod.mk.injEq] at heq
          obtain ⟨rfl, rfl, rfl⟩ := heq
          obtain ⟨rest2, hl, hciq, hshape, hk⟩ := stage3_sound hst3
          refine ⟨[c], cs0, rest2, rfl, ?_, hciq, by simp [hl], hshape, hk⟩
          rcases hvc with rfl | rfl
          · exact Or.inr (Or.inl rfl)
          · exact Or.inr (Or.inr rfl)
        · obtain ⟨rest2, hl, hciq, hshape, hk⟩ := stage3_sound h
          exact ⟨[], g3, rest2, by simp, Or.inl rfl, hciq, hl, hshape, hk⟩
      · simp only [stageV, if_true, if_neg hvc] at h
        obtain ⟨rest2, hl, hciq, hshape, hk⟩ := stage3_sound h
        exact ⟨[], g3, rest2, by simp, Or.inl rfl, hciq, hl, hshape, hk⟩

theorem stageBr_sound {allowV : Bool} {tok : List Char}
    {k : List Char → Option β} {l g2 g3 g4 : List Char} {b : β}
    (h : stageBr allowV tok k l = some (g2, g3, g4, b)) :
    ∃ opt cs rest2, (g2 = ['['] ∨ g2 = []) ∧ g3 = opt ++ cs ∧
      (opt = [] ∨ opt = ['v'] ∨ opt = ['V']) ∧ ciEq tok cs = true ∧
      l = g2 ++ g3 ++ g4 ++ rest2 ∧ (g4 = [']'] ∨ g4 = []) ∧
      k rest2 = some b := by
  cases l with
  | nil =>
    simp only [stageBr, Option.map_eq_some'] at h
    obtain ⟨⟨g3', g4', b'⟩, hsv, heq⟩ := h
    simp only [Prod.mk.injEq] at heq
    obtain ⟨rfl, rfl, rfl, rfl⟩ := heq
    obtain ⟨opt, cs, rest2, hg3, hopt, hciq, hl, hshape, hk⟩ := stageV_sound hsv
    exact ⟨opt, cs, rest2, Or.inr rfl, hg3, hopt, hciq, by simp [hl], hshape, hk⟩
  | cons c rest =>
    by_cases hc : c = '['
    · simp only [stageBr, if_pos hc] at h
      subst hc
      rw [oor_eq_some] at h
      rcases h with h | ⟨-, h⟩
      · rw [Option.map_eq_some'] at h
        obtain ⟨⟨g3', g4', b'⟩, hsv, heq⟩ := h
        simp only [Prod.mk.injEq] at heq
        obtain ⟨rfl, rfl, rfl, rfl⟩ := heq
        obtain ⟨opt, cs, rest2, hg3, hopt, hciq, hl, hshape, hk⟩ :=
          stageV_sound hsv
        exact ⟨opt, cs, rest2, Or.inl rfl, hg3, hopt, hciq, by simp [hl],
          hshape, hk⟩
      · rw [Option.map_eq_some'] at h
        obtain ⟨⟨g3', g4', b'⟩, hsv, heq⟩ := h
        simp only [Prod.mk.injEq] at heq
        obtain ⟨rfl, rfl, rfl, rfl⟩ := heq
        obtain ⟨opt, cs, rest2, hg3, hopt, hciq, hl, hshape, hk⟩ :=
          stageV_sound hsv
        exact ⟨opt, cs, rest2, Or.inr rfl, hg3, hopt, hciq, by simp [hl],
          hshape, hk⟩
    · simp only [stageBr, if_neg hc, Option.map_eq_some'] at h
      obtain ⟨⟨g3', g4', b'⟩, hsv, heq⟩ := h
      simp only [Prod.mk.injEq] at heq
      obtain ⟨rfl, rfl, rfl, rfl⟩ := heq
      obtain ⟨opt, cs, rest2, hg3, hopt, hciq, hl, hshape, hk⟩ :=
        stageV_sound hsv
      exact ⟨opt, cs, rest2, Or.inr rfl, hg3, hopt, hciq, by simp [hl],
        hshape, hk⟩

theorem stageWs_sound {inner : List Char → Option γ} {l ws : List Char}
    {g : γ} (h : stageWs inner l = some (ws, g)) :
    ∃ L, l = ws ++ L ∧ ws.all jsWs = true ∧ inner L = some g := by
  induction l generalizing ws with
  | nil =>
    simp only [stageWs, Option.map_eq_some'] at h
    obtain ⟨g', hg', heq⟩ := h
    simp only [Prod.mk.injEq] at heq
    obtain ⟨rfl, rfl⟩ := heq
    exact ⟨[], rfl, rfl, hg'⟩
  | cons c rest ih =>
    by_cases hw : jsWs c
    · simp only [stageWs, if_pos hw] at h
      rw [oor_eq_some] at h
      rcases h with h | ⟨-, h⟩
      · rw [Option.map_eq_some'] at h
        obtain ⟨⟨ws', g'⟩, hws', heq⟩ := h
        simp only [Prod.mk.injEq] at heq
        obtain ⟨rfl, rfl⟩ := heq
        obtain ⟨L, hL, hall, hinner⟩ := ih hws'
        exact ⟨L, by simp [hL], by simp [hw, hall], hinner⟩
      · rw [Option.map_eq_some'] at h
        obtain ⟨g', hg', heq⟩ := h
        simp only [Prod.mk.injEq] at heq
        obtain ⟨rfl, rfl⟩ := heq
        exact ⟨c :: rest, rfl, rfl, hg'⟩
    · simp only [stageWs, if_neg hw, Option.map_eq_some'] at h
      obtain ⟨g', hg', heq⟩ := h
      simp only [Prod.mk.injEq] at heq
      obtain ⟨rfl, rfl⟩ := heq
      exact ⟨c :: rest, rfl, rfl, hg'⟩

theorem stageHash_sound {inner : List Char → Option γ} {n : Nat}
    {l hs : List Char} {g : γ} (hn : n ≤ 6)
    (h : stageHash inner n l = some (hs, g)) :
    ∃ L, l = hs ++ L ∧ hs = List.replicate hs.length '#' ∧
      1 ≤ n + hs.length ∧ n + hs.length ≤ 6 ∧ inner L = some g := by
  induction l generalizing n hs with
  | nil =>
    simp only [stageHash] at h
    split at h
    · rw [Option.map_eq_some'] at h
      obtain ⟨g', hg', heq⟩ := h
      simp only [Prod.mk.injEq] at heq
      obtain ⟨rfl, rfl⟩ := heq
      exact ⟨[], rfl, rfl, by simpa, by simpa, hg'⟩
    · exact absurd h (by simp)
  | cons c rest ih =>
    simp only [stageHash] at h
    rw [oor_eq_some] at h
    rcases h with h | ⟨-, h⟩
    · split at h
      · rename_i hguard
        rw [Option.map_eq_some'] at h
        obtain ⟨⟨hs', g'⟩, hrec, heq⟩ := h
        simp only [Prod.mk.injEq] at heq
        obtain ⟨rfl, rfl⟩ := heq
        obtain ⟨L, hL, hrep, h1, h6, hinner⟩ := ih (by omega) hrec
        refine ⟨L, ?_, ?_, by simp; omega, by simp; omega, hinner⟩
        · simp [hL, hguard.2]
        · simp only [List.length_cons, List.replicate_succ]
          exact congrArg ('#' :: ·) hrep
      · exact absurd h (by simp)
    · split at h
      · rename_i hguard
        rw [Option.map_eq_some'] at h
        obtain ⟨g', hg', heq⟩ := h
        simp only [Prod.mk.injEq] at heq
        obtain ⟨rfl, rfl⟩ := heq
        exact ⟨c :: rest, rfl, rfl, by simpa, by simpa, hg'⟩
      · exact absurd h (by simp)

theorem scanHdr_sound {allowV : Bool} {tok : List Char}
    {k : List Char → Option β} {line g1 g2 g3 g4 : List Char} {b : β}
    (h : scanHdr allowV tok k line = some (g1, g2, g3, g4, b)) :
    ∃ hs ws opt cs rest,
      g1 = hs ++ ws ∧ hs = List.replicate hs.length '#' ∧
      1 ≤ hs.length ∧ hs.length ≤ 6 ∧ ws.all jsWs = true ∧
      (g2 = ['['] ∨ g2 = []) ∧ g3 = opt ++ cs ∧
      (opt = [] ∨ opt = ['v'] ∨ opt = ['V']) ∧ ciEq tok cs = true ∧
      (g4 = [']'] ∨ g4 = []) ∧
      line = g1 ++ g2 ++ g3 ++ g4 ++ rest ∧ k rest = some b := by
  unfold scanHdr at h
  rw [Option.map_eq_some'] at h
  obtain ⟨⟨hs, ws, g2', g3', g4', b'⟩, hrun, heq⟩ := h
  simp only [Prod.mk.injEq] at heq
  obtain ⟨hg1, rfl, rfl, rfl, rfl⟩ := heq
  obtain ⟨L1, hline, hrep, h1, h6, hws⟩ := stageHash_sound (by omega) hrun
  have hws' : stageWs (fun l2 => stageBr allowV tok k l2) L1 =
      some (ws, g2', g3', g4', b') := hws
  obtain ⟨L2, hL1, hall, hbr⟩ := stageWs_sound hws'
  obtain ⟨opt, cs, rest, hg2sh, hg3, hopt, hciq, hL2, hg4sh, hk⟩ :=
    stageBr_sound hbr
  refine ⟨hs, ws, opt, cs, rest, hg1.symm, hrep, by simpa using h1,
    by simpa using h6, hall, hg2sh, hg3, hopt, hciq, hg4sh, ?_, hk⟩
  subst hg1
  simp [hline, hL1, hL2]

theorem matchHdr_sound {allowV : Bool} {tok line g1 g2 g3 g4 g5 : List Char}
    (h : matchHdr allowV tok line = some (g1, g2, g3, g4, g5)) :
    ∃ hs ws opt cs,
      g1 = hs ++ ws ∧ hs = List.replicate hs.length '#' ∧
      1 ≤ hs.length ∧ hs.length ≤ 6 ∧ ws.all jsWs = true ∧
      (g2 = ['['] ∨ g2 = []) ∧ g3 = opt ++ cs ∧
      (opt = [] ∨ opt = ['v'] ∨ opt = ['V']) ∧ ciEq tok cs = true ∧
      (g4 = [']'] ∨ g4 = []) ∧ g5.all jsDot = true ∧
      line = g1 ++ g2 ++ g3 ++ g4 ++ g5 := by
  unfold matchHdr at h
  obtain ⟨hs, ws, opt, cs, rest, hg1, hrep, h1, h6, hall, hg2, hg3, hopt,
    hciq, hg4, hline, hk⟩ := scanHdr_sound h
  have hrest : rest.all jsDot = true ∧ rest = g5 := by
    by_cases hd : rest.all jsDot
    · simp [hd] at hk
      exact ⟨hd, hk⟩
    · simp [hd] at hk
  obtain ⟨hdot, rfl⟩ := hrest
  exact ⟨hs, ws, opt, cs, hg1, hrep, h1, h6, hall, hg2, hg3, hopt, hciq,
    hg4, hdot, hline⟩

/-! ## Completeness of the staged matcher on canonically-shaped lines

The rewritten header produced by `update-changelog.ts` has the shape
`<hashes><ws>[TOK] - <today>`; these lemmas compute the matcher's result on
such lines. -/

theorem jsWs_ne_hash {c : Char} (h : jsWs c = true) : c ≠ '#' := by
  intro hc
  subst hc
  exact absurd h (by decide)

theorem stage4_complete_br {k : List Char → Option β} {rest : List Char}
    {b : β} (h : k rest = some b) :
    stage4 k (']' :: rest) = some ([']'], b) := by
  simp [stage4, oor, h]

theorem stage3_complete {tok cs rest g4 : List Char}
    {k : List Char → Option β} {b : β} (hci : ciEq tok cs = true)
    (h : stage4 k rest = some (g4, b)) :
    stage3 tok k (cs ++ rest) = some (cs, g4, b) := by
  unfold stage3
  rw [ciConsume_complete rest hci]
  simp [h]

theorem stageV_complete_noV {allowV : Bool} {tok l : List Char}
    {k : List Char → Option β} {cs g4 : List Char} {b : β}
    (hhead : ∀ c, l.head? = some c → ¬(c = 'v' ∨ c = 'V'))
    (h : stage3 tok k l = some (cs, g4, b)) :
    stageV allowV tok k l = some (cs, g4, b) := by
  cases allowV with
  | false => simpa [stageV] using h
  | true =>
    cases l with
    | nil => simpa [stageV] using h
    | cons c rest =>
      have := hhead c rfl
      simp [stageV, this]
      exact h

theorem stageV_complete_v {tok rest : List Char} {c : Char}
    {k : List Char → Option β} {cs g4 : List Char} {b : β}
    (hc : c = 'v' ∨ c = 'V')
    (h : stage3 tok k rest = some (cs, g4, b)) :
    stageV true tok k (c :: rest) = some (c :: cs, g4, b) := by
  simp [stageV, hc, oor, h]

theorem stageBr_complete_br {allowV : Bool} {tok rest : List Char}
    {k : List Char → Option β} {g3 g4 : List Char} {b : β}
    (h : stageV allowV tok k rest = some (g3, g4, b)) :
    stageBr allowV tok k ('[' :: rest) = some (['['], g3, g4, b) := by
  simp [stageBr, oor, h]

theorem stageWs_complete {inner : List Char → Option γ} {ws L : List Char}
    {g : γ} (hws : ws.all jsWs = true)
    (hL : ∀ c, L.head? = some c → jsWs c = false)
    (h : inner L = some g) :
    stageWs inner (ws ++ L) = some (ws, g) := by
  induction ws with
  | nil =>
    cases L with
    | nil => simp [stageWs, h]
    | cons c rest =>
      have hc := hL c rfl
      simp [stageWs, hc, h]
  | cons c ws' ih =>
    simp only [List.all_cons, Bool.and_eq_true] at hws
    simp [stageWs, hws.1, oor, ih hws.2]

theorem stageHash_complete {inner : List Char → Option γ} {L : List Char}
    {g : γ} {n m : Nat} (h1 : 1 ≤ n + m) (h6 : n + m ≤ 6)
    (hL : ∀ c, L.head? = some c → c ≠ '#')
    (h : inner L = some g) :
    stageHash inner n (List.replicate m '#' ++ L) =
      some (List.replicate m '#', g) := by
  induction m generalizing n with
  | zero =>
    cases L with
    | nil => simp only [List.replicate, List.nil_append, stageHash]
             simp [show 1 ≤ n by omega, h]
    | cons c rest =>
      have hc := hL c rfl
      simp only [List.replicate, List.nil_append, stageHash]
      simp [hc, show 1 ≤ n by omega, oor, h]
  | succ m' ih =>
    simp only [List.replicate_succ, List.cons_append, stageHash]
    have hrec : stageHash inner (n + 1) (List.replicate m' '#' ++ L) =
        some (List.replicate m' '#', g) := ih (by omega) (by omega)
    simp [show n < 6 by omega, oor, hrec]

theorem scanHdr_complete {allowV : Bool} {tok : List Char}
    {k : List Char → Option β} {n : Nat} {ws tail g2 g3 g4 : List Char}
    {b : β} (hn1 : 1 ≤ n) (hn6 : n ≤ 6) (hws : ws.all jsWs = true)
    (htail : ∀ c, tail.head? = some c → jsWs c = false ∧ c ≠ '#')
    (hbr : stageBr allowV tok k tail = some (g2, g3, g4, b)) :
    scanHdr allowV tok k (List.replicate n '#' ++ ws ++ tail) =
      some (List.replicate n '#' ++ ws, g2, g3, g4, b) := by
  unfold scanHdr
  have hwt : ∀ c, (ws ++ tail).head? = some c → c ≠ '#' := by
    intro c hc
    cases ws with
    | nil => exact (htail c (by simpa using hc)).2
    | cons w ws' =>
      simp at hc
      subst hc
      simp only [List.all_cons, Bool.and_eq_true] at hws
      exact jsWs_ne_hash hws.1
  have hwsrun : stageWs (fun l2 => stageBr allowV tok k l2) (ws ++ tail) =
      some (ws, g2, g3, g4, b) :=
    stageWs_complete hws (fun c hc => (htail c hc).1) hbr
  rw [List.append_assoc]
  have hrun : stageHash
      (fun l1 => stageWs (fun l2 => stageBr allowV tok k l2) l1) 0
      (List.replicate n '#' ++ (ws ++ tail)) =
      some (List.replicate n '#', ws, g2, g3, g4, b) :=
    stageHash_complete (by omega) (by omega) hwt hwsrun
  rw [hrun]
  rfl

theorem matchHdr_canonical {allowV : Bool} {tok : List Char} {n : Nat}
    {ws g3core : List Char} {today : String}
    (hn1 : 1 ≤ n) (hn6 : n ≤ 6) (hws : ws.all jsWs = true)
    (hcore :
      (ciEq tok g3core = true ∧
        ∀ c, g3core.head? = some c → ¬(c = 'v' ∨ c = 'V')) ∨
      (∃ vc cs, g3core = vc :: cs ∧ (vc = 'v' ∨ vc = 'V') ∧
        ciEq tok cs = true ∧ allowV = true))
    (htoday : today.data.all jsDot = true) :
    matchHdr allowV tok
      (List.replicate n '#' ++ ws ++
        '[' :: (g3core ++ ']' :: ' ' :: '-' :: ' ' :: today.data)) =
      some (List.replicate n '#' ++ ws, ['['], g3core, [']'],
        ' ' :: '-' :: ' ' :: today.data) := by
  unfold matchHdr
  have hk : (fun rest => if rest.all jsDot then some rest else none)
      (' ' :: '-' :: ' ' :: today.data) =
      some (' ' :: '-' :: ' ' :: today.data) := by
    have h1 : jsDot ' ' = true := by decide
    have h2 : jsDot '-' = true := by decide
    simp [htoday, h1, h2]
  have hst4 : stage4 (fun rest => if rest.all jsDot then some rest else none)
      (']' :: ' ' :: '-' :: ' ' :: today.data) =
      some ([']'], ' ' :: '-' :: ' ' :: today.data) :=
    stage4_complete_br hk
  have hsv : stageV allowV tok
      (fun rest => if rest.all jsDot then some rest else none)
      (g3core ++ ']' :: ' ' :: '-' :: ' ' :: today.data) =
      some (g3core, [']'], ' ' :: '-' :: ' ' :: today.data) := by
    rcases hcore with ⟨hci, hhead⟩ | ⟨vc, cs, rfl, hvc, hci, hAV⟩
    · refine stageV_complete_noV ?_ (stage3_complete hci hst4)
      intro c hc
      cases g3core with
      | nil => simp at hc; subst hc; simp
      | cons d rest' => simp at hc; subst hc; exact hhead d rfl
    · subst hAV
      have := stageV_complete_v hvc (stage3_complete hci hst4)
      simpa using this
  exact scanHdr_complete hn1 hn6 hws
    (fun c hc => by simp at hc; subst hc; exact ⟨by decide, by decide⟩)
    (stageBr_complete_br hsv)

/-! ## Assorted helper lemmas -/

theorem data_append (s t : String) : (s ++ t).data = s.data ++ t.data := rfl

theorem canonicalHeader_data (pre tok : List Char) (today : String) :
    (canonicalHeader pre tok today).data =
      pre ++ '[' :: (tok ++ ']' :: ' ' :: '-' :: ' ' :: today.data) := by
  simp [canonicalHeader, data_append]

theorem set_self_of_getElem? {l : List α} {i : Nat} {a : α}
    (h : l[i]? = some a) : l.set i a = l := by
  induction l generalizing i with
  | nil => simp at h
  | cons x xs ih =>
    cases i with
    | zero => simp at h; simp [h]
    | succ i' =>
      simp at h
      simp [List.set_cons_succ, ih h]

theorem getD_eq_of_getElem? {l : List α} {i : Nat} {a d : α}
    (h : l[i]? = some a) : l.getD i d = a := by
  simp [List.getD, h]

theorem skipBlanksGo_eq (lines : List String) (fuel j : Nat)
    (hfuel : fuel = lines.length - j) :
    skipBlanksGo lines fuel j =
      if j < lines.length ∧ blankLine (lines.getD j "") then
        skipBlanksGo lines (lines.length - (j + 1)) (j + 1)
      else j := by
  cases fuel with
  | zero =>
    have : ¬ j < lines.length := by omega
    simp [skipBlanksGo, this]
  | succ k =>
    have hj : j < lines.length := by omega
    by_cases hb : blankLine (lines.getD j "")
    · rw [if_pos ⟨hj, hb⟩]
      rw [show skipBlanksGo lines (k + 1) j =
        if blankLine (lines.getD j "") then skipBlanksGo lines k (j + 1)
        else j from rfl]
      rw [if_pos hb, show k = lines.length - (j + 1) from by omega]
    · rw [if_neg (fun hc => hb hc.2)]
      rw [show skipBlanksGo lines (k + 1) j =
        if blankLine (lines.getD j "") then skipBlanksGo lines k (j + 1)
        else j from rfl]
      rw [if_neg hb]

theorem skipBlanks_eq (lines : List String) (j : Nat) :
    skipBlanks lines j =
      if j < lines.length ∧ blankLine (lines.getD j "") then
        skipBlanks lines (j + 1)
      else j := by
  unfold skipBlanks
  exact skipBlanksGo_eq lines (lines.length - j) j rfl

theorem skipBlanks_ge (lines : List String) (j : Nat) :
    j ≤ skipBlanks lines j := by
  rw [skipBlanks_eq]
  split
  · rename_i hcond
    have := skipBlanks_ge lines (j + 1)
    omega
  · exact le_refl j
termination_by lines.length - j

theorem skipBlanks_le_length (lines : List String) (j : Nat)
    (h : j ≤ lines.length) : skipBlanks lines j ≤ lines.length := by
  rw [skipBlanks_eq]
  split
  · rename_i hcond
    exact skipBlanks_le_length lines (j + 1) (by omega)
  · exact h
termination_by lines.length - j

theorem skipBlanks_blank_range (lines : List String) (j m : Nat)
    (hjm : j ≤ m) (hm : m < skipBlanks lines j) :
    blankLine (lines.getD m "") = true := by
  rw [skipBlanks_eq] at hm
  by_cases hcond : j < lines.length ∧ blankLine (lines.getD j "")
  · rw [if_pos hcond] at hm
    by_cases hjm' : j = m
    · subst hjm'
      exact hcond.2
    · exact skipBlanks_blank_range lines (j + 1) m (by omega) hm
  · rw [if_neg hcond] at hm
    omega
termination_by lines.length - j

theorem skipBlanks_stop (lines : List String) (j : Nat)
    (h : skipBlanks lines j < lines.length) :
    blankLine (lines.getD (skipBlanks lines j) "") = false := by
  rw [skipBlanks_eq]
  by_cases hcond : j < lines.length ∧ blankLine (lines.getD j "")
  · rw [if_pos hcond]
    apply skipBlanks_stop lines (j + 1)
    rw [skipBlanks_eq, if_pos hcond] at h
    exact h
  · rw [if_neg hcond]
    rw [skipBlanks_eq, if_neg hcond] at h
    rcases not_and_or.mp hcond with hc | hc
    · omega
    · exact eq_false_of_ne_true hc
termination_by lines.length - j

/-! ## Unfolding the three branches of `updateChangelogLines` -/

theorem update_version_branch (lines : List String)
    (versionArg today : String) {i : Nat}
    (h : firstIdx? (vTestU (stripLowerV versionArg)) lines = some i) :
    updateChangelogLines lines versionArg today =
      ⟨lines.set i
        (match matchHdr true (stripLowerV versionArg).data
            ((lines.getD i "").data) with
          | some (g1, _, g3, _, _) =>
            canonicalHeader g1 (stripLowerVL g3) today
          | none => lines.getD i ""), false⟩ := by
  unfold updateChangelogLines
  rw [h]

theorem update_unreleased_branch (lines : List String)
    (versionArg today : String) {i : Nat}
    (hv : firstIdx? (vTestU (stripLowerV versionArg)) lines = none)
    (hu : firstIdx? uTestU lines = some i) :
    updateChangelogLines lines versionArg today =
      ⟨lines.set i
        (match matchHdr false "Unreleased".data ((lines.getD i "").data) with
          | some (g1, _, _, _, _) =>
            canonicalHeader g1 (stripLowerV versionArg).data today
          | none => lines.getD i ""), false⟩ := by
  unfold updateChangelogLines
  rw [hv, hu]

theorem update_synth_branch (lines : List String)
    (versionArg today : String)
    (hv : firstIdx? (vTestU (stripLowerV versionArg)) lines = none)
    (hu : firstIdx? uTestU lines = none) :
    updateChangelogLines lines versionArg today =
      ⟨lines.take (insertIndexOf lines) ++
        newSectionLines (stripLowerV versionArg) today ++
        lines.drop (insertIndexOf lines), true⟩ := by
  unfold updateChangelogLines
  rw [hv, hu]

theorem insertIndexOf_le_length (lines : List String) :
    insertIndexOf lines ≤ lines.length := by
  unfold insertIndexOf
  cases h : firstIdx? isTitleLine lines with
  | none => simp
  | some t =>
    simp only []
    have := firstIdx?_bound h
    exact skipBlanks_le_length lines (t + 1) (by omega)

/-! ## Re-matching the canonical rewritten header (version `2.0.0`) -/

theorem ciEq_cons {t : Char} {ts cs : List Char}
    (h : ciEq (t :: ts) cs = true) :
    ∃ c cs1, cs = c :: cs1 ∧ charCI t c = true ∧ ciEq ts cs1 = true := by
  cases cs with
  | nil => simp [ciEq] at h
  | cons c cs1 =>
    simp only [ciEq, Bool.and_eq_true] at h
    exact ⟨c, cs1, rfl, h.1, h.2⟩

/-- A character that case-insensitively equals `'2'` is `'2'`-like: it is not
`'v'`/`'V'` and not stripped by `stripLowerVL`. -/
theorem charCI_two_not_v {c : Char} (h : charCI '2' c = true) :
    c ≠ 'v' ∧ c ≠ 'V' := by
  constructor <;> intro hc <;> subst hc <;> exact absurd h (by decide)

/-- The token `"2.0.0"`. -/
def tok200 : List Char := "2.0.0".data

/-- Given the group-3 decomposition from a successful `versionRx` match for
`2.0.0`, the cleaned token (lowercase-`v` stripped) re-matches the pattern
and is stable under further stripping. -/
theorem cleanVer_facts {opt cs : List Char}
    (hopt : opt = [] ∨ opt = ['v'] ∨ opt = ['V'])
    (hci : ciEq tok200 cs = true) :
    (ciEq tok200 (stripLowerVL (opt ++ cs)) = true ∧
        ∀ c, (stripLowerVL (opt ++ cs)).head? = some c →
          ¬(c = 'v' ∨ c = 'V')) ∨
      (∃ vc cs1, stripLowerVL (opt ++ cs) = vc :: cs1 ∧
        (vc = 'v' ∨ vc = 'V') ∧ ciEq tok200 cs1 = true) := by
  obtain ⟨c, cs1, rfl, hcc, -⟩ := ciEq_cons
    (show ciEq ('2' :: (".0.0" : String).data) cs = true from hci)
  obtain ⟨hcv, hcV⟩ := charCI_two_not_v hcc
  rcases hopt with rfl | rfl | rfl
  · left
    constructor
    · simpa [stripLowerVL, hcv] using hci
    · intro d hd
      simp [stripLowerVL, hcv] at hd
      subst hd
      simp [hcv, hcV]
  · left
    constructor
    · simpa [stripLowerVL] using hci
    · intro d hd
      simp [stripLowerVL] at hd
      subst hd
      simp [hcv, hcV]
  · right
    exact ⟨'V', c :: cs1, by simp [stripLowerVL], Or.inr rfl, hci⟩

/-- Stripping is idempotent on the cleaned token. -/
theorem cleanVer_strip_stable {opt cs : List Char}
    (hopt : opt = [] ∨ opt = ['v'] ∨ opt = ['V'])
    (hci : ciEq tok200 cs = true) :
    stripLowerVL (stripLowerVL (opt ++ cs)) = stripLowerVL (opt ++ cs) := by
  obtain ⟨c, cs1, rfl, hcc, -⟩ := ciEq_cons
    (show ciEq ('2' :: (".0.0" : String).data) cs = true from hci)
  obtain ⟨hcv, -⟩ := charCI_two_not_v hcc
  rcases hopt with rfl | rfl | rfl
  · simp [stripLowerVL, hcv]
  · simp [stripLowerVL, hcv]
  · simp [stripLowerVL]

theorem tok200_eq : "2.0.0".data = tok200 := rfl

theorem strip200 : stripLowerV "2.0.0" = "2.0.0" := rfl

theorem stripLowerVL_tok200 : stripLowerVL tok200 = tok200 := rfl

/-- A rewritten header `canonicalHeader g1 cv today` (with `g1` the hash/
whitespace prefix of a successful match and `cv` a cleaned token for
`2.0.0`) matches `versionRx` again, capturing exactly the same pieces. -/
theorem matchHdr_canonical_of_groups {g1 cv : List Char} {today : String}
    (hg1 : ∃ hs ws, g1 = hs ++ ws ∧ hs = List.replicate hs.length '#' ∧
      1 ≤ hs.length ∧ hs.length ≤ 6 ∧ ws.all jsWs = true)
    (hcore : (ciEq tok200 cv = true ∧
        ∀ c, cv.head? = some c → ¬(c = 'v' ∨ c = 'V')) ∨
      (∃ vc cs1, cv = vc :: cs1 ∧ (vc = 'v' ∨ vc = 'V') ∧
        ciEq tok200 cs1 = true))
    (htoday : today.data.all jsDot = true) :
    matchHdr true tok200 (canonicalHeader g1 cv today).data =
      some (g1, ['['], cv, [']'], ' ' :: '-' :: ' ' :: today.data) := by
  obtain ⟨hs, ws, rfl, hrep, h1, h6, hws⟩ := hg1
  rw [canonicalHeader_data, List.append_assoc]
  rw [show (hs ++ (ws ++ '[' :: (cv ++ ']' :: ' ' :: '-' :: ' ' ::
      today.data))) = hs ++ ws ++ '[' :: (cv ++ ']' :: ' ' :: '-' :: ' ' ::
      today.data) from by rw [List.append_assoc]]
  have hcore' : (ciEq tok200 cv = true ∧
      ∀ c, cv.head? = some c → ¬(c = 'v' ∨ c = 'V')) ∨
      (∃ vc cs, cv = vc :: cs ∧ (vc = 'v' ∨ vc = 'V') ∧
        ciEq tok200 cs = true ∧ true = true) := by
    rcases hcore with hc | ⟨vc, cs1, rfl, hvc, hci⟩
    · exact Or.inl hc
    · exact Or.inr ⟨vc, cs1, rfl, hvc, hci, rfl⟩
  have hres : matchHdr true tok200 (List.replicate hs.length '#' ++ ws ++
      '[' :: (cv ++ ']' :: ' ' :: '-' :: ' ' :: today.data)) =
      some (List.replicate hs.length '#' ++ ws, ['['], cv, [']'],
        ' ' :: '-' :: ' ' :: today.data) :=
    matchHdr_canonical h1 h6 hws hcore' htoday
  rwa [← hrep] at hres

/-- First-match idempotence, version branch: rewriting the first
`versionRx`-matching line and running the update again rewrites the same
line to the same text. -/
theorem idem_version_branch (lines : List String) (today : String)
    (htoday : today.data.all jsDot = true) {i : Nat}
    (h : firstIdx? (vTestU "2.0.0") lines = some i) :
    (updateChangelogLines (updateChangelogLines lines "2.0.0" today).lines
        "2.0.0" today).lines =
      (updateChangelogLines lines "2.0.0" today).lines := by
  obtain ⟨line, hline, hp, hlt⟩ := firstIdx?_eq_some h
  have hgd : lines.getD i "" = line := getD_eq_of_getElem? hline
  rw [vTestU, tok200_eq] at hp
  obtain ⟨⟨g1, g2, g3, g4, g5⟩, hm⟩ := Option.isSome_iff_exists.mp hp
  obtain ⟨hs, ws, opt, cs, hg1, hrep, h1n, h6n, hws, hg2, hg3, hopt, hci,
    hg4, hdot, hdecomp⟩ := matchHdr_sound hm
  have hrun1 : updateChangelogLines lines "2.0.0" today =
      ⟨lines.set i (canonicalHeader g1 (stripLowerVL g3) today), false⟩ := by
    rw [update_version_branch lines "2.0.0" today (by rw [strip200]; exact h)]
    rw [strip200, hgd, tok200_eq, hm]
  have hm2 : matchHdr true tok200
      (canonicalHeader g1 (stripLowerVL g3) today).data =
      some (g1, ['['], stripLowerVL g3, [']'],
        ' ' :: '-' :: ' ' :: today.data) := by
    subst hg3
    exact matchHdr_canonical_of_groups ⟨hs, ws, hg1, hrep, h1n, h6n, hws⟩
      (cleanVer_facts hopt hci) htoday
  have hlen : i < lines.length := (List.getElem?_eq_some.mp hline).1
  have hset_i : (lines.set i
      (canonicalHeader g1 (stripLowerVL g3) today))[i]? =
      some (canonicalHeader g1 (stripLowerVL g3) today) :=
    List.getElem?_set_self hlen
  have hfind2 : firstIdx? (vTestU "2.0.0")
      (lines.set i (canonicalHeader g1 (stripLowerVL g3) today)) =
      some i := by
    apply firstIdx?_complete hset_i
    · rw [vTestU, tok200_eq, hm2]
      rfl
    · intro j hj b hb
      rw [List.getElem?_set_ne (by omega)] at hb
      exact hlt j hj b hb
  have hgd2 : (lines.set i (canonicalHeader g1 (stripLowerVL g3) today)).getD
      i "" = canonicalHeader g1 (stripLowerVL g3) today :=
    getD_eq_of_getElem? hset_i
  rw [hrun1]
  rw [update_version_branch _ "2.0.0" today (by rw [strip200]; exact hfind2)]
  rw [strip200, hgd2, tok200_eq, hm2]
  have hstable : stripLowerVL (stripLowerVL g3) = stripLowerVL g3 := by
    subst hg3
    exact cleanVer_strip_stable hopt hci
  dsimp only
  rw [hstable, List.set_set]

/-- First-match idempotence, Unreleased branch. -/
theorem idem_unreleased_branch (lines : List String) (today : String)
    (htoday : today.data.all jsDot = true) {i : Nat}
    (hv : firstIdx? (vTestU "2.0.0") lines = none)
    (hu : firstIdx? uTestU lines = some i) :
    (updateChangelogLines (updateChangelogLines lines "2.0.0" today).lines
        "2.0.0" today).lines =
      (updateChangelogLines lines "2.0.0" today).lines := by
  obtain ⟨line, hline, hp, hlt⟩ := firstIdx?_eq_some hu
  have hgd : lines.getD i "" = line := getD_eq_of_getElem? hline
  rw [uTestU] at hp
  obtain ⟨⟨g1, g2, g3, g4, g5⟩, hm⟩ := Option.isSome_iff_exists.mp hp
  obtain ⟨hs, ws, opt, cs, hg1, hrep, h1n, h6n, hws, -, -, -, -, -, -⟩ :=
    matchHdr_sound hm
  have hrun1 : updateChangelogLines lines "2.0.0" today =
      ⟨lines.set i (canonicalHeader g1 tok200 today), false⟩ := by
    rw [update_unreleased_branch lines "2.0.0" today
      (by rw [strip200]; exact hv) hu]
    rw [hgd, hm, strip200, tok200_eq]
  have hm2 : matchHdr true tok200 (canonicalHeader g1 tok200 today).data =
      some (g1, ['['], tok200, [']'],
        ' ' :: '-' :: ' ' :: today.data) :=
    matchHdr_canonical_of_groups ⟨hs, ws, hg1, hrep, h1n, h6n, hws⟩
      (Or.inl ⟨by decide, by decide⟩) htoday
  have hlen : i < lines.length := (List.getElem?_eq_some.mp hline).1
  have hset_i : (lines.set i (canonicalHeader g1 tok200 today))[i]? =
      some (canonicalHeader g1 tok200 today) :=
    List.getElem?_set_self hlen
  have hfind2 : firstIdx? (vTestU "2.0.0")
      (lines.set i (canonicalHeader g1 tok200 today)) = some i := by
    apply firstIdx?_complete hset_i
    · rw [vTestU, tok200_eq, hm2]
      rfl
    · intro j hj b hb
      rw [List.getElem?_set_ne (by omega)] at hb
      exact firstIdx?_eq_none hv hb
  have hgd2 : (lines.set i (canonicalHeader g1 tok200 today)).getD i "" =
      canonicalHeader g1 tok200 today := getD_eq_of_getElem? hset_i
  rw [hrun1]
  rw [update_version_branch _ "2.0.0" today (by rw [strip200]; exact hfind2)]
  rw [strip200, hgd2, tok200_eq, hm2]
  dsimp only
  rw [stripLowerVL_tok200, List.set_set]

/-- The synthesized header for version `2.0.0`. -/
theorem synthHeader_data (today : String) :
    ("## [" ++ "2.0.0" ++ "] - " ++ today : String).data =
      List.replicate 2 '#' ++ [' '] ++
        '[' :: (tok200 ++ ']' :: ' ' :: '-' :: ' ' :: today.data) := rfl

/-- First-match idempotence, synthesis branch: running the update on a
document into which a fresh section was just inserted finds the new header
and rewrites it to itself. -/
theorem idem_synth_branch (lines : List String) (today : String)
    (htoday : today.data.all jsDot = true)
    (hv : firstIdx? (vTestU "2.0.0") lines = none)
    (hu : firstIdx? uTestU lines = none) :
    (updateChangelogLines (updateChangelogLines lines "2.0.0" today).lines
        "2.0.0" today).lines =
      (updateChangelogLines lines "2.0.0" today).lines := by
  have hidx : insertIndexOf lines ≤ lines.length :=
    insertIndexOf_le_length lines
  have hrun1 : updateChangelogLines lines "2.0.0" today =
      ⟨lines.take (insertIndexOf lines) ++ newSectionLines "2.0.0" today ++
        lines.drop (insertIndexOf lines), true⟩ := by
    rw [update_synth_branch lines "2.0.0" today
      (by rw [strip200]; exact hv) hu, strip200]
  have htake : (lines.take (insertIndexOf lines)).length =
      insertIndexOf lines := List.length_take_of_le hidx
  have hm2 : matchHdr true tok200
      ("## [" ++ "2.0.0" ++ "] - " ++ today : String).data =
      some (List.replicate 2 '#' ++ [' '], ['['], tok200, [']'],
        ' ' :: '-' :: ' ' :: today.data) := by
    rw [synthHeader_data]
    exact matchHdr_canonical (by omega) (by omega) (by decide)
      (Or.inl ⟨by decide, by decide⟩) htoday
  have hlen2 : (lines.take (insertIndexOf lines) ++
      newSectionLines "2.0.0" today).length = insertIndexOf lines + 7 := by
    simp [htake, newSectionLines]
  have hout_idx1 : (lines.take (insertIndexOf lines) ++
      newSectionLines "2.0.0" today ++
      lines.drop (insertIndexOf lines))[insertIndexOf lines + 1]? =
      some ("## [" ++ "2.0.0" ++ "] - " ++ today) := by
    rw [List.getElem?_append_left (by omega : insertIndexOf lines + 1 <
      (lines.take (insertIndexOf lines) ++
        newSectionLines "2.0.0" today).length)]
    rw [List.getElem?_append_right (by omega : (lines.take
      (insertIndexOf lines)).length ≤ insertIndexOf lines + 1)]
    rw [htake]
    rw [show insertIndexOf lines + 1 - insertIndexOf lines = 1 from by omega]
    rfl
  have hfind2 : firstIdx? (vTestU "2.0.0")
      (lines.take (insertIndexOf lines) ++ newSectionLines "2.0.0" today ++
        lines.drop (insertIndexOf lines)) = some (insertIndexOf lines + 1) := by
    apply firstIdx?_complete hout_idx1
    · rw [vTestU, tok200_eq, hm2]
      rfl
    · intro j hj b hb
      by_cases hji : j < insertIndexOf lines
      · rw [List.getElem?_append_left (by omega : j <
          (lines.take (insertIndexOf lines) ++
            newSectionLines "2.0.0" today).length)] at hb
        rw [List.getElem?_append_left (by omega : j <
          (lines.take (insertIndexOf lines)).length)] at hb
        rw [List.getElem?_take_of_lt hji] at hb
        exact firstIdx?_eq_none hv hb
      · have hj' : j = insertIndexOf lines := by omega
        subst hj'
        rw [List.getElem?_append_left (by omega : insertIndexOf lines <
          (lines.take (insertIndexOf lines) ++
            newSectionLines "2.0.0" today).length)] at hb
        rw [List.getElem?_append_right (by omega : (lines.take
          (insertIndexOf lines)).length ≤ insertIndexOf lines)] at hb
        rw [htake, Nat.sub_self] at hb
        have hb' : b = "" := by
          have : (newSectionLines "2.0.0" today)[0]? = some "" := rfl
          rw [this] at hb
          exact (Option.some.injEq .. ▸ hb).symm
        subst hb'
        decide
  have hgd2 : (lines.take (insertIndexOf lines) ++
      newSectionLines "2.0.0" today ++
      lines.drop (insertIndexOf lines)).getD (insertIndexOf lines + 1) "" =
      "## [" ++ "2.0.0" ++ "] - " ++ today := getD_eq_of_getElem? hout_idx1
  rw [hrun1]
  rw [update_version_branch _ "2.0.0" today (by rw [strip200]; exact hfind2)]
  dsimp only
  rw [hgd2]
  rw [strip200, tok200_eq, hm2]
  dsimp only
  rw [stripLowerVL_tok200]
  exact set_self_of_getElem? hout_idx1

/-! ## Round-tripping `join("\n")` through `split(/\r?\n/)`

Writing the updated lines and re-reading them is the identity exactly when
no written line contains a `\n` and no written line ends in a `\r` (a
trailing `\r` would be swallowed by the next read's separator match). -/

theorem mk_data (s : String) : String.mk s.data = s := rfl

theorem dropTrailCR_of_getLast_ne {l : List Char}
    (h : l.getLast? ≠ some '\r') : dropTrailCR l.reverse = l := by
  cases hrev : l.reverse with
  | nil =>
    have hl : l = [] := by simpa using congrArg List.reverse hrev
    subst hl
    rfl
  | cons c a =>
    have hc : l.getLast? = some c := by
      rw [← List.head?_reverse, hrev]
      rfl
    have hcr : c ≠ '\r' := fun he => h (he ▸ hc)
    simp only [dropTrailCR, if_neg hcr]
    rw [← hrev, List.reverse_reverse]

theorem mem_dropTrailCR {c : Char} {acc : List Char}
    (h : c ∈ dropTrailCR acc) : c ∈ acc := by
  cases acc with
  | nil => simp [dropTrailCR] at h
  | cons d a =>
    by_cases hd : d = '\r'
    · simp only [dropTrailCR, if_pos hd, List.mem_reverse] at h
      exact List.mem_cons_of_mem _ h
    · simpa only [dropTrailCR, if_neg hd, List.mem_reverse] using h

theorem splitGo_no_newline {l : List Char} :
    ∀ {acc : List Char}, '\n' ∉ acc → ∀ p ∈ splitGo l acc, '\n' ∉ p := by
  induction l with
  | nil =>
    intro acc hacc p hp
    simp only [splitGo, List.mem_singleton] at hp
    subst hp
    simpa using hacc
  | cons c rest ih =>
    intro acc hacc p hp
    by_cases hc : c = '\n'
    · subst hc
      simp only [splitGo, if_pos rfl, List.mem_cons] at hp
      cases hp with
      | head =>
        intro hin
        exact hacc (mem_dropTrailCR hin)
      | tail _ hp =>
        exact ih (by simp) p hp
    · simp only [splitGo, if_neg hc] at hp
      refine ih ?_ p hp
      intro hin
      rcases List.mem_cons.mp hin with he | hin'
      · exact hc he.symm
      · exact hacc hin'

theorem splitGo_of_no_newline {l : List Char} (hl : '\n' ∉ l) :
    ∀ acc, splitGo l acc = [acc.reverse ++ l] := by
  induction l with
  | nil => intro acc; simp [splitGo]
  | cons c rest ih =>
    intro acc
    have hc : c ≠ '\n' := fun he => hl (he ▸ List.mem_cons_self c rest)
    simp only [splitGo, if_neg hc]
    rw [ih (fun hm => hl (List.mem_cons_of_mem _ hm))]
    simp

theorem splitGo_append_newline {l1 l2 : List Char} (h : '\n' ∉ l1) :
    ∀ acc, splitGo (l1 ++ '\n' :: l2) acc =
      dropTrailCR (l1.reverse ++ acc) :: splitGo l2 [] := by
  induction l1 with
  | nil => intro acc; simp [splitGo]
  | cons c l1' ih =>
    intro acc
    have hc : c ≠ '\n' := fun he => h (he ▸ List.mem_cons_self c l1')
    simp only [List.cons_append, splitGo, if_neg hc, List.append_eq]
    rw [ih (fun hm => h (List.mem_cons_of_mem _ hm))]
    simp

theorem joinN_cons_cons (x y : String) (rest : List String) :
    (joinN (x :: y :: rest)).data = x.data ++ '\n' :: (joinN (y :: rest)).data
    := by
  show (x ++ "\n" ++ joinN (y :: rest)).data = _
  simp [data_append]

theorem splitLinesJS_joinN (ls : List String) (hne : ls ≠ [])
    (hgood : ∀ l ∈ ls, '\n' ∉ l.data ∧ l.data.getLast? ≠ some '\r') :
    splitLinesJS (joinN ls) = ls := by
  induction ls with
  | nil => exact absurd rfl hne
  | cons x rest ih =>
    cases rest with
    | nil =>
      show splitLinesJS x = [x]
      unfold splitLinesJS
      rw [splitGo_of_no_newline (hgood x (by simp)).1]
      simp [mk_data]
    | cons y rest' =>
      unfold splitLinesJS
      rw [joinN_cons_cons, splitGo_append_newline (hgood x (by simp)).1,
        List.append_nil, dropTrailCR_of_getLast_ne (hgood x (by simp)).2]
      simp only [List.map_cons, mk_data]
      congr 1
      exact ih (by simp) (fun l hl => hgood l (List.mem_cons_of_mem _ hl))

/-! ## The rewritten lines never contain `\n` or end in `\r` -/

theorem mem_stripLowerVL {c : Char} {l : List Char}
    (h : c ∈ stripLowerVL l) : c ∈ l := by
  cases l with
  | nil => simp [stripLowerVL] at h
  | cons d rest =>
    by_cases hd : d = 'v'
    · simp only [stripLowerVL, if_pos hd] at h
      exact List.mem_cons_of_mem _ h
    · simpa only [stripLowerVL, if_neg hd] using h

theorem jsDot_mem_facts {today : String} (htoday : today.data.all jsDot = true) :
    '\n' ∉ today.data ∧ today.data.getLast? ≠ some '\r' := by
  constructor
  · intro hm
    have := List.all_eq_true.mp htoday _ hm
    exact absurd this (by decide)
  · intro hlast
    have := List.all_eq_true.mp htoday _ (List.mem_of_mem_getLast? hlast)
    exact absurd this (by decide)

theorem canonicalHeader_good (g1 cv : List Char) (today : String)
    (hg1 : '\n' ∉ g1) (hcv : '\n' ∉ cv)
    (htoday : today.data.all jsDot = true) :
    '\n' ∉ (canonicalHeader g1 cv today).data ∧
    (canonicalHeader g1 cv today).data.getLast? ≠ some '\r' := by
  obtain ⟨htd, htdl⟩ := jsDot_mem_facts htoday
  rw [canonicalHeader_data]
  constructor
  · intro hin
    simp only [List.mem_append, List.mem_cons] at hin
    rcases hin with h | h | h | h | h | h | h | h
    · exact hg1 h
    · exact absurd h (by decide)
    · exact hcv h
    · exact absurd h (by decide)
    · exact absurd h (by decide)
    · exact absurd h (by decide)
    · exact absurd h (by decide)
    · exact htd h
  · rw [show g1 ++ '[' :: (cv ++ ']' :: ' ' :: '-' :: ' ' :: today.data) =
      (g1 ++ '[' :: (cv ++ [']', ' ', '-', ' '])) ++ today.data from by simp]
    cases htdd : today.data with
    | nil =>
      rw [List.append_nil]
      rw [show g1 ++ '[' :: (cv ++ [']', ' ', '-', ' ']) =
        (g1 ++ '[' :: (cv ++ [']', ' ', '-'])) ++ [' '] from by simp]
      rw [List.getLast?_concat]
      simp
    | cons c td =>
      rw [List.getLast?_append_of_ne_nil _ (by simp)]
      rw [← htdd]
      exact htdl

/-- The synthesized `## [v] - d` line contains no `\n` and does not end in
`\r` when neither the version nor the date does. -/
theorem synth_header_good (v today : String) (hv : '\n' ∉ v.data)
    (htoday : today.data.all jsDot = true) :
    '\n' ∉ ("## [" ++ v ++ "] - " ++ today).data ∧
    ("## [" ++ v ++ "] - " ++ today).data.getLast? ≠ some '\r' := by
  obtain ⟨htd, htdl⟩ := jsDot_mem_facts htoday
  have hdata : ("## [" ++ v ++ "] - " ++ today).data =
      (("## [".data ++ v.data) ++ "] - ".data) ++ today.data := by
    simp [data_append]
  rw [hdata]
  constructor
  · intro hin
    rcases List.mem_append.mp hin with h12 | h3
    · rcases List.mem_append.mp h12 with h01 | h2
      · rcases List.mem_append.mp h01 with h0 | h1
        · exact absurd h0 (by decide)
        · exact hv h1
      · exact absurd h2 (by decide)
    · exact htd h3
  · cases htdd : today.data with
    | nil =>
      rw [List.append_nil]
      rw [List.getLast?_append_of_ne_nil _ (by decide)]
      decide
    | cons c td =>
      rw [List.getLast?_append_of_ne_nil _ (by simp)]
      rw [← htdd]
      exact htdl

/-- Every line the update writes contains no `\n` and does not end in `\r`,
provided the input lines, the (v-stripped) version and the date are equally
well-behaved; the written line list is also never empty. -/
theorem update_lines_good (lines : List String) (versionArg today : String)
    (hva : '\n' ∉ (stripLowerV versionArg).data)
    (htoday : today.data.all jsDot = true)
    (hgood : ∀ l ∈ lines, '\n' ∉ l.data ∧ l.data.getLast? ≠ some '\r') :
    (updateChangelogLines lines versionArg today).lines ≠ [] ∧
    ∀ l ∈ (updateChangelogLines lines versionArg today).lines,
      '\n' ∉ l.data ∧ l.data.getLast? ≠ some '\r' := by
  cases hv : firstIdx? (vTestU (stripLowerV versionArg)) lines with
  | some i =>
    obtain ⟨line, hline, hp, -⟩ := firstIdx?_eq_some hv
    have hgd : lines.getD i "" = line := getD_eq_of_getElem? hline
    have hmem : line ∈ lines := List.getElem?_mem hline
    have hps : (matchHdr true (stripLowerV versionArg).data
        line.data).isSome = true := hp
    obtain ⟨⟨g1, g2, g3, g4, g5⟩, hm⟩ :=
      Option.isSome_iff_exists.mp hps
    have hout : (updateChangelogLines lines versionArg today).lines =
        lines.set i (canonicalHeader g1 (stripLowerVL g3) today) := by
      rw [update_version_branch lines versionArg today hv, hgd, hm]
    obtain ⟨-, -, -, -, -, -, -, -, -, -, -, -, -, -, -, hdecomp⟩ :=
      matchHdr_sound hm
    have hlnl : '\n' ∉ line.data := (hgood line hmem).1
    have hg1nl : '\n' ∉ g1 := fun hx =>
      hlnl (by rw [hdecomp]; simp only [List.mem_append]
               exact Or.inl (Or.inl (Or.inl (Or.inl hx))))
    have hg3nl : '\n' ∉ g3 := fun hx =>
      hlnl (by rw [hdecomp]; simp only [List.mem_append]
               exact Or.inl (Or.inl (Or.inr hx)))
    have hhdr := canonicalHeader_good g1 (stripLowerVL g3) today hg1nl
      (fun hx => hg3nl (mem_stripLowerVL hx)) htoday
    rw [hout]
    have hbound : i < lines.length := firstIdx?_bound hv
    constructor
    · intro hemp
      have hlen := congrArg List.length hemp
      simp only [List.length_set, List.length_nil] at hlen
      omega
    · intro l hl
      rcases List.mem_or_eq_of_mem_set hl with hml | rfl
      · exact hgood l hml
      · exact hhdr
  | none =>
    cases hu : firstIdx? uTestU lines with
    | some i =>
      obtain ⟨line, hline, hp, -⟩ := firstIdx?_eq_some hu
      have hgd : lines.getD i "" = line := getD_eq_of_getElem? hline
      have hmem : line ∈ lines := List.getElem?_mem hline
      have hps : (matchHdr false ("Unreleased" : String).data
          line.data).isSome = true := hp
      obtain ⟨⟨g1, g2, g3, g4, g5⟩, hm⟩ :=
        Option.isSome_iff_exists.mp hps
      have hout : (updateChangelogLines lines versionArg today).lines =
          lines.set i
            (canonicalHeader g1 (stripLowerV versionArg).data today) := by
        rw [update_unreleased_branch lines versionArg today hv hu, hgd, hm]
      obtain ⟨-, -, -, -, -, -, -, -, -, -, -, -, -, -, -, hdecomp⟩ :=
        matchHdr_sound hm
      have hlnl : '\n' ∉ line.data := (hgood line hmem).1
      have hg1nl : '\n' ∉ g1 := fun hx =>
        hlnl (by rw [hdecomp]; simp only [List.mem_append]
                 exact Or.inl (Or.inl (Or.inl (Or.inl hx))))
      have hhdr := canonicalHeader_good g1 (stripLowerV versionArg).data
        today hg1nl hva htoday
      rw [hout]
      have hbound : i < lines.length := firstIdx?_bound hu
      constructor
      · intro hemp
        have hlen := congrArg List.length hemp
        simp only [List.length_set, List.length_nil] at hlen
        omega
      · intro l hl
        rcases List.mem_or_eq_of_mem_set hl with hml | rfl
        · exact hgood l hml
        · exact hhdr
    | none =>
      have hout : (updateChangelogLines lines versionArg today).lines =
          lines.take (insertIndexOf lines) ++
            newSectionLines (stripLowerV versionArg) today ++
            lines.drop (insertIndexOf lines) := by
        rw [update_synth_branch lines versionArg today hv hu]
      rw [hout]
      constructor
      · intro hemp
        simp [newSectionLines] at hemp
      · intro l hl
        rcases List.mem_append.mp hl with h12 | hdrop
        · rcases List.mem_append.mp h12 with htake | hnew
          · exact hgood l (List.mem_of_mem_take htake)
          · simp only [newSectionLines, List.mem_cons, List.not_mem_nil,
              or_false] at hnew
            rcases hnew with rfl | rfl | rfl | rfl | rfl | rfl | rfl
            · exact ⟨by decide, by decide⟩
            · exact synth_header_good (stripLowerV versionArg) today hva
                htoday
            · exact ⟨by decide, by decide⟩
            · exact ⟨by decide, by decide⟩
            · exact ⟨by decide, by decide⟩
            · exact ⟨by decide, by decide⟩
            · exact ⟨by decide, by decide⟩
        · exact hgood l (List.mem_of_mem_drop hdrop)

/-- Applying the update with version `2.0.0` a second time to the line
sequence the first application produced changes nothing, whichever of the
three branches the first application took. -/
theorem updateLines_idem (lines : List String) (today : String)
    (htoday : today.data.all jsDot = true) :
    (updateChangelogLines (updateChangelogLines lines "2.0.0" today).lines
        "2.0.0" today).lines =
      (updateChangelogLines lines "2.0.0" today).lines := by
  cases hv : firstIdx? (vTestU "2.0.0") lines with
  | some i => exact idem_version_branch lines today htoday hv
  | none =>
    cases hu : firstIdx? uTestU lines with
    | some i => exact idem_unreleased_branch lines today htoday hv hu
    | none => exact idem_synth_branch lines today htoday hv hu

/-- Applying the update with version `2.0.0` to its own output text is the
identity whenever no line of the input (as split on the separator) ends in
a carriage return: the rewritten lines then survive the write/re-read
round trip unchanged, and the line-level update is idempotent. -/
theorem updateText_idem_200 (documentText today : String)
    (htoday : today.data.all jsDot = true)
    (hgood : ∀ l ∈ splitLinesJS documentText,
      l.data.getLast? ≠ some '\r') :
    (updateChangelogText (updateChangelogText documentText "2.0.0"
        today).1 "2.0.0" today).1 =
      (updateChangelogText documentText "2.0.0" today).1 := by
  have hnl : ∀ l ∈ splitLinesJS documentText, '\n' ∉ l.data := by
    intro l hl
    unfold splitLinesJS at hl
    rcases List.mem_map.mp hl with ⟨p, hp, rfl⟩
    exact splitGo_no_newline (by simp) p hp
  have hin : ∀ l ∈ splitLinesJS documentText,
      '\n' ∉ l.data ∧ l.data.getLast? ≠ some '\r' :=
    fun l hl => ⟨hnl l hl, hgood l hl⟩
  have hva : '\n' ∉ (stripLowerV ("2.0.0" : String)).data := by decide
  obtain ⟨hne, hout⟩ := update_lines_good (splitLinesJS documentText)
    "2.0.0" today hva htoday hin
  have hsplit : splitLinesJS (joinN (updateChangelogLines
        (splitLinesJS documentText) "2.0.0" today).lines) =
      (updateChangelogLines (splitLinesJS documentText) "2.0.0"
        today).lines :=
    splitLinesJS_joinN _ hne hout
  unfold updateChangelogText
  dsimp only
  rw [hsplit]
  exact congrArg joinN (updateLines_idem (splitLinesJS documentText) today
    htoday)

/-! ## Claim theorems -/

/-- C1: for every current version string that parses as a semantic version
and every request exactly equal to the keyword `"major"`, `"minor"` or
`"patch"`, the computed next version increments that numeric component by 1,
resets all less-significant numeric components to 0, and has an empty
prerelease identifier list (so `1.0.0-beta.1` bumped by `"patch"` yields
`1.0.1`, not `1.0.0`). -/
theorem C1_keyword_bump (cur : String) (v : SemVer)
    (h : parseSemVer cur = some v) :
    computeNext cur "major" = .ok ⟨v.major + 1, 0, 0, [], v.build⟩ ∧
    computeNext cur "minor" = .ok ⟨v.major, v.minor + 1, 0, [], v.build⟩ ∧
    computeNext cur "patch" = .ok ⟨v.major, v.minor, v.patch + 1, [], v.build⟩ := by
  refine ⟨?_, ?_, ?_⟩ <;> simp [computeNext, h]

/-- Witness for C1 at `1.0.0-beta.1`: the patch bump clears the prerelease
and increments the patch component. -/
theorem C1_keyword_bump_witness :
    parseSemVer "1.0.0-beta.1" =
      some ⟨1, 0, 0, [.str "beta", .num 1], []⟩ ∧
    (computeNext "1.0.0-beta.1" "major" = .ok ⟨2, 0, 0, [], []⟩ ∧
      computeNext "1.0.0-beta.1" "minor" = .ok ⟨1, 1, 0, [], []⟩ ∧
      computeNext "1.0.0-beta.1" "patch" = .ok ⟨1, 0, 1, [], []⟩) ∧
    formatSemVer ⟨1, 0, 1, [], []⟩ = "1.0.1" :=
  ⟨by decide,
    C1_keyword_bump "1.0.0-beta.1" ⟨1, 0, 0, [.str "beta", .num 1], []⟩
      (by decide),
    by decide⟩

/-- C9: a request that is none of the three keywords is adopted verbatim
when it parses (no ordering check against the current version), and
otherwise the operation fails with an error message containing the
offending literal string. -/
theorem C9_explicit_version (cur req : String) (v : SemVer)
    (hcur : parseSemVer cur = some v)
    (hreq : req ≠ "major" ∧ req ≠ "minor" ∧ req ≠ "patch") :
    (∀ w, parseSemVer req = some w → computeNext cur req = .ok w) ∧
    (parseSemVer req = none →
      computeNext cur req = .error ("Invalid version: " ++ req) ∧
      ∃ pre post, ("Invalid version: " ++ req) = pre ++ req ++ post) := by
  obtain ⟨h1, h2, h3⟩ := hreq
  constructor
  · intro w hw
    simp [computeNext, hcur, h1, h2, h3, hw]
  · intro hw
    refine ⟨by simp [computeNext, hcur, h1, h2, h3, hw], "Invalid version: ",
      "", by simp⟩

/-- Witness for C9: explicit targets (including a downgrade and a prerelease
target) pass through verbatim; a malformed target fails naming the
literal. -/
theorem C9_explicit_version_witness :
    parseSemVer "1.0.0" = some ⟨1, 0, 0, [], []⟩ ∧
    computeNext "1.0.0" "2.5.7" = .ok ⟨2, 5, 7, [], []⟩ ∧
    formatSemVer ⟨2, 5, 7, [], []⟩ = "2.5.7" ∧
    computeNext "1.0.0" "0.9.0" = .ok ⟨0, 9, 0, [], []⟩ ∧
    computeNext "1.0.0" "1.0.0-rc.1" =
      .ok ⟨1, 0, 0, [.str "rc", .num 1], []⟩ ∧
    computeNext "1.0.0" "not-a-version" =
      .error ("Invalid version: " ++ "not-a-version") := by
  refine ⟨by decide, ?_, by decide, ?_, ?_, ?_⟩
  · exact (C9_explicit_version "1.0.0" "2.5.7" ⟨1, 0, 0, [], []⟩ (by decide)
      ⟨by decide, by decide, by decide⟩).1 _ (by decide)
  · exact (C9_explicit_version "1.0.0" "0.9.0" ⟨1, 0, 0, [], []⟩ (by decide)
      ⟨by decide, by decide, by decide⟩).1 _ (by decide)
  · exact (C9_explicit_version "1.0.0" "1.0.0-rc.1" ⟨1, 0, 0, [], []⟩
      (by decide) ⟨by decide, by decide, by decide⟩).1 _ (by decide)
  · exact ((C9_explicit_version "1.0.0" "not-a-version" ⟨1, 0, 0, [], []⟩
      (by decide) ⟨by decide, by decide, by decide⟩).2 (by decide)).1

/-- C7 counterexample: the keyword branch never clears `build`, so bumping
`1.2.3+build.5` by `"patch"` formats to `1.2.4+build.5`, which still carries
a `+<build>` suffix — refuting the claim that build metadata is dropped. -/
theorem C7_counterexample :
    computeNext "1.2.3+build.5" "patch" =
      .ok ⟨1, 2, 4, [], ["build", "5"]⟩ ∧
    formatSemVer ⟨1, 2, 4, [], ["build", "5"]⟩ = "1.2.4+build.5" ∧
    '+' ∈ (formatSemVer ⟨1, 2, 4, [], ["build", "5"]⟩).data := by
  refine ⟨rfl, by decide, by decide⟩

/-- C7 amended: bumping by a keyword preserves the build metadata of the
current version verbatim (the formatted next version keeps its `+<build>`
suffix). -/
theorem C7_amended (cur : String) (v : SemVer) (req : String)
    (h : parseSemVer cur = some v)
    (hreq : req = "major" ∨ req = "minor" ∨ req = "patch") :
    ∃ w, computeNext cur req = .ok w ∧ w.build = v.build ∧
      w.prerelease = [] := by
  rcases hreq with rfl | rfl | rfl
  · exact ⟨⟨v.major + 1, 0, 0, [], v.build⟩, by simp [computeNext, h],
      rfl, rfl⟩
  · exact ⟨⟨v.major, v.minor + 1, 0, [], v.build⟩, by simp [computeNext, h],
      rfl, rfl⟩
  · exact ⟨⟨v.major, v.minor, v.patch + 1, [], v.build⟩,
      by simp [computeNext, h], rfl, rfl⟩

/-- Witness for the amended C7. -/
theorem C7_amended_witness :
    parseSemVer "1.2.3+build.5" = some ⟨1, 2, 3, [], ["build", "5"]⟩ ∧
    ("patch" = "major" ∨ "patch" = "minor" ∨ "patch" = "patch") ∧
    ∃ w, computeNext "1.2.3+build.5" "patch" = .ok w ∧
      w.build = ["build", "5"] ∧ w.prerelease = [] :=
  ⟨by decide, Or.inr (Or.inr rfl),
    C7_amended "1.2.3+build.5" ⟨1, 2, 3, [], ["build", "5"]⟩ "patch"
      (by decide) (Or.inr (Or.inr rfl))⟩

/-- C8 counterexample: the normalisation `versionArg.replace(/^v/, "")` is
case-sensitive, so extraction with `"V1.0.0"` does not behave like
`"1.0.0"`: it fails to find the `## [1.0.0]` heading and returns the
not-found sentinel. -/
theorem C8_counterexample :
    extractChangelogSection "# Changelog\n\n## [1.0.0]\n\n- stuff\n"
        "V1.0.0" =
      "No changelog entry found for version V1.0.0 and no 'Unreleased' section present." ∧
    extractChangelogSection "# Changelog\n\n## [1.0.0]\n\n- stuff\n"
        "1.0.0" =
      "## [1.0.0]\n\n- stuff" ∧
    extractChangelogSection "# Changelog\n\n## [1.0.0]\n\n- stuff\n"
        "V1.0.0" ≠
      extractChangelogSection "# Changelog\n\n## [1.0.0]\n\n- stuff\n"
        "1.0.0" := by
  refine ⟨rfl, rfl, by decide⟩

/-- C8 amended: both changelog operations strip exactly one leading
lowercase `v` from the version argument, so `"v" ++ ver` behaves identically
to `ver` whenever `ver` does not itself start with a lowercase `v`; an
uppercase `V` prefix is not stripped. -/
theorem C8_amended (lines : List String) (ver today : String)
    (h : ver.data.head? ≠ some 'v') :
    extractFromLines lines ("v" ++ ver) = extractFromLines lines ver ∧
    updateChangelogLines lines ("v" ++ ver) today =
      updateChangelogLines lines ver today := by
  have hstrip : stripLowerV ("v" ++ ver) = stripLowerV ver := by
    have hd : ("v" ++ ver).data = 'v' :: ver.data := rfl
    unfold stripLowerV
    rw [hd]
    cases hv : ver.data with
    | nil => rfl
    | cons c rest =>
      have hcv : c ≠ 'v' := by
        intro hc
        subst hc
        rw [hv] at h
        exact h rfl
      simp [stripLowerVL, hcv]
  constructor
  · unfold extractFromLines
    rw [hstrip]
  · unfold updateChangelogLines
    rw [hstrip]

/-- Witness for the amended C8: with a `"v"`-prefixed argument the update
behaves exactly as with the bare version and rewrites the `## [1.0.0]`
heading. -/
theorem C8_amended_witness :
    ("1.0.0" : String).data.head? ≠ some 'v' ∧
    (extractFromLines ["# Changelog", "", "## [1.0.0]", "", "- stuff"]
        ("v" ++ "1.0.0") =
      extractFromLines ["# Changelog", "", "## [1.0.0]", "", "- stuff"]
        "1.0.0" ∧
    updateChangelogLines ["# Changelog", "", "## [1.0.0]", "", "- stuff"]
        ("v" ++ "1.0.0") "2025-06-01" =
      updateChangelogLines ["# Changelog", "", "## [1.0.0]", "", "- stuff"]
        "1.0.0" "2025-06-01") ∧
    (updateChangelogLines ["# Changelog", "", "## [1.0.0]", "", "- stuff"]
        "1.0.0" "2025-06-01").lines =
      ["# Changelog", "", "## [1.0.0] - 2025-06-01", "", "- stuff"] :=
  ⟨by decide,
    C8_amended ["# Changelog", "", "## [1.0.0]", "", "- stuff"] "1.0.0"
      "2025-06-01" (by decide),
    by decide⟩

/-- C2: extraction is total and follows the match / Unreleased-fallback /
sentinel order: it returns the section at the first `hdrRx`-matching line;
otherwise, if some line matches the Unreleased matcher, the section at the
first such line; otherwise the human-readable not-found message, which
names the (normalised) requested version. -/
theorem C2_extract_trichotomy (documentText versionArg : String) :
    (∃ i a, (splitLinesJS documentText)[i]? = some a ∧
      hdrTest (stripLowerV versionArg) a = true ∧
      (∀ j, j < i → ∀ b, (splitLinesJS documentText)[j]? = some b →
        hdrTest (stripLowerV versionArg) b = false) ∧
      extractChangelogSection documentText versionArg =
        sectionAt (splitLinesJS documentText) i) ∨
    ((∀ (j : Nat) (b : String), (splitLinesJS documentText)[j]? = some b →
        hdrTest (stripLowerV versionArg) b = false) ∧
      ∃ i a, (splitLinesJS documentText)[i]? = some a ∧
        unreleasedTestGC a = true ∧
        (∀ j, j < i → ∀ b, (splitLinesJS documentText)[j]? = some b →
          unreleasedTestGC b = false) ∧
        extractChangelogSection documentText versionArg =
          sectionAt (splitLinesJS documentText) i) ∨
    ((∀ (j : Nat) (b : String), (splitLinesJS documentText)[j]? = some b →
        hdrTest (stripLowerV versionArg) b = false) ∧
      (∀ (j : Nat) (b : String), (splitLinesJS documentText)[j]? = some b →
        unreleasedTestGC b = false) ∧
      extractChangelogSection documentText versionArg =
        notFoundMsg (stripLowerV versionArg) ∧
      ∃ pre post, notFoundMsg (stripLowerV versionArg) =
        pre ++ stripLowerV versionArg ++ post) := by
  unfold extractChangelogSection
  cases hh : firstIdx? (hdrTest (stripLowerV versionArg))
      (splitLinesJS documentText) with
  | some i =>
    left
    obtain ⟨a, ha, hpa, hlt⟩ := firstIdx?_eq_some hh
    refine ⟨i, a, ha, hpa, hlt, ?_⟩
    unfold extractFromLines
    rw [hh]
  | none =>
    cases hu : firstIdx? unreleasedTestGC (splitLinesJS documentText) with
    | some i =>
      right; left
      obtain ⟨a, ha, hpa, hlt⟩ := firstIdx?_eq_some hu
      refine ⟨fun j b hb => firstIdx?_eq_none hh hb, i, a, ha, hpa, hlt, ?_⟩
      unfold extractFromLines
      rw [hh, hu]
    | none =>
      right; right
      refine ⟨fun j b hb => firstIdx?_eq_none hh hb,
        fun j b hb => firstIdx?_eq_none hu hb, ?_,
        "No changelog entry found for version ",
        " and no 'Unreleased' section present.", rfl⟩
      unfold extractFromLines
      rw [hh, hu]

/-- Witness for C2: the trichotomy instantiated on a document with only an
Unreleased section, requested version `9.9.9` — the Unreleased fallback
fires, and on an empty-match document the sentinel names the version. -/
theorem C2_extract_trichotomy_witness :
    ((∃ i a, (splitLinesJS
        "# Changelog\n\n## [Unreleased]\n\n### Added\n- thing\n")[i]? =
          some a ∧
      hdrTest (stripLowerV "9.9.9") a = true ∧
      (∀ j, j < i → ∀ b, (splitLinesJS
        "# Changelog\n\n## [Unreleased]\n\n### Added\n- thing\n")[j]? =
          some b →
        hdrTest (stripLowerV "9.9.9") b = false) ∧
      extractChangelogSection
          "# Changelog\n\n## [Unreleased]\n\n### Added\n- thing\n"
          "9.9.9" =
        sectionAt (splitLinesJS
          "# Changelog\n\n## [Unreleased]\n\n### Added\n- thing\n") i) ∨
    ((∀ (j : Nat) (b : String), (splitLinesJS
        "# Changelog\n\n## [Unreleased]\n\n### Added\n- thing\n")[j]? =
          some b →
        hdrTest (stripLowerV "9.9.9") b = false) ∧
      ∃ i a, (splitLinesJS
        "# Changelog\n\n## [Unreleased]\n\n### Added\n- thing\n")[i]? =
          some a ∧
        unreleasedTestGC a = true ∧
        (∀ j, j < i → ∀ b, (splitLinesJS
          "# Changelog\n\n## [Unreleased]\n\n### Added\n- thing\n")[j]? =
            some b →
          unreleasedTestGC b = false) ∧
        extractChangelogSection
            "# Changelog\n\n## [Unreleased]\n\n### Added\n- thing\n"
            "9.9.9" =
          sectionAt (splitLinesJS
            "# Changelog\n\n## [Unreleased]\n\n### Added\n- thing\n")
            i) ∨
    ((∀ (j : Nat) (b : String), (splitLinesJS
        "# Changelog\n\n## [Unreleased]\n\n### Added\n- thing\n")[j]? =
          some b →
        hdrTest (stripLowerV "9.9.9") b = false) ∧
      (∀ (j : Nat) (b : String), (splitLinesJS
        "# Changelog\n\n## [Unreleased]\n\n### Added\n- thing\n")[j]? =
          some b →
        unreleasedTestGC b = false) ∧
      extractChangelogSection
          "# Changelog\n\n## [Unreleased]\n\n### Added\n- thing\n"
          "9.9.9" =
        notFoundMsg (stripLowerV "9.9.9") ∧
      ∃ pre post, notFoundMsg (stripLowerV "9.9.9") =
        pre ++ stripLowerV "9.9.9" ++ post)) ∧
    extractChangelogSection
        "# Changelog\n\n## [Unreleased]\n\n### Added\n- thing\n"
        "9.9.9" =
      "## [Unreleased]\n\n### Added\n- thing" :=
  ⟨C2_extract_trichotomy
      "# Changelog\n\n## [Unreleased]\n\n### Added\n- thing\n" "9.9.9",
    rfl⟩

/-- C3: when a version heading is found at line `i`, the extracted section
runs from `i` up to but excluding the first later line that is a heading of
level `≤` the start level (end of document otherwise): no line strictly
inside the section is such a boundary, and the line at the section end (if
any) is one. -/
theorem C3_section_boundary (documentText versionArg : String) (i : Nat)
    (hfind : firstIdx? (hdrTest (stripLowerV versionArg))
      (splitLinesJS documentText) = some i) :
    i < sectionEnd (splitLinesJS documentText) i ∧
    sectionEnd (splitLinesJS documentText) i ≤
      (splitLinesJS documentText).length ∧
    (∀ (j : Nat) (b : String), i < j →
      j < sectionEnd (splitLinesJS documentText) i →
      (splitLinesJS documentText)[j]? = some b →
      stopsSection (startLevelOf ((splitLinesJS documentText).getD i "")) b =
        false) ∧
    (sectionEnd (splitLinesJS documentText) i =
        (splitLinesJS documentText).length ∨
      ∃ b, (splitLinesJS documentText)[sectionEnd
          (splitLinesJS documentText) i]? = some b ∧
        stopsSection (startLevelOf ((splitLinesJS documentText).getD i ""))
          b = true) ∧
    extractChangelogSection documentText versionArg =
      stripLinkRef (jsTrim (joinN
        (((splitLinesJS documentText).drop i).take
          (sectionEnd (splitLinesJS documentText) i - i)))) := by
  have hbound := firstIdx?_bound hfind
  have hextract : extractChangelogSection documentText versionArg =
      sectionAt (splitLinesJS documentText) i := by
    unfold extractChangelogSection extractFromLines
    rw [hfind]
  cases hscan : firstIdx?
      (stopsSection (startLevelOf ((splitLinesJS documentText).getD i "")))
      ((splitLinesJS documentText).drop (i + 1)) with
  | some k =>
    have hend : sectionEnd (splitLinesJS documentText) i = i + 1 + k := by
      unfold sectionEnd
      rw [hscan]
    obtain ⟨b0, hb0, hpb0, hlt⟩ := firstIdx?_eq_some hscan
    rw [List.getElem?_drop] at hb0
    have hb0len : i + 1 + k < (splitLinesJS documentText).length :=
      (List.getElem?_eq_some.mp hb0).1
    refine ⟨by omega, by omega, ?_, ?_, ?_⟩
    · intro j b hij hje hjb
      rw [hend] at hje
      have := hlt (j - (i + 1)) (by omega) b
        (by rw [List.getElem?_drop,
          show i + 1 + (j - (i + 1)) = j from by omega]; exact hjb)
      exact this
    · right
      exact ⟨b0, by rw [hend]; exact hb0, hpb0⟩
    · rw [hextract]
      rfl
  | none =>
    have hend : sectionEnd (splitLinesJS documentText) i =
        (splitLinesJS documentText).length := by
      unfold sectionEnd
      rw [hscan]
    refine ⟨by omega, by omega, ?_, Or.inl hend, ?_⟩
    · intro j b hij hje hjb
      exact firstIdx?_eq_none hscan
        (by rw [List.getElem?_drop,
          show i + 1 + (j - (i + 1)) = j from by omega]; exact hjb)
    · rw [hextract]
      rfl

/-- Witness for C3 on the two-section document from the specification: the
`2.0.0` section keeps its nested `####` subheading and stops right before
the same-level `1.9.0` heading. -/
theorem C3_section_boundary_witness :
    firstIdx? (hdrTest (stripLowerV "2.0.0")) (splitLinesJS
      "# Changelog\n\n## [2.0.0] - 2024-02-01\n\n### Added\n- a\n\n#### Sub\n- b\n\n## [1.9.0] - 2024-01-01\n\n- old\n") =
      some 2 ∧
    (2 < sectionEnd (splitLinesJS
        "# Changelog\n\n## [2.0.0] - 2024-02-01\n\n### Added\n- a\n\n#### Sub\n- b\n\n## [1.9.0] - 2024-01-01\n\n- old\n") 2 ∧
      sectionEnd (splitLinesJS
        "# Changelog\n\n## [2.0.0] - 2024-02-01\n\n### Added\n- a\n\n#### Sub\n- b\n\n## [1.9.0] - 2024-01-01\n\n- old\n") 2 ≤
        (splitLinesJS
        "# Changelog\n\n## [2.0.0] - 2024-02-01\n\n### Added\n- a\n\n#### Sub\n- b\n\n## [1.9.0] - 2024-01-01\n\n- old\n").length ∧
      (∀ (j : Nat) (b : String), 2 < j →
        j < sectionEnd (splitLinesJS
          "# Changelog\n\n## [2.0.0] - 2024-02-01\n\n### Added\n- a\n\n#### Sub\n- b\n\n## [1.9.0] - 2024-01-01\n\n- old\n") 2 →
        (splitLinesJS
          "# Changelog\n\n## [2.0.0] - 2024-02-01\n\n### Added\n- a\n\n#### Sub\n- b\n\n## [1.9.0] - 2024-01-01\n\n- old\n")[j]? = some b →
        stopsSection (startLevelOf ((splitLinesJS
          "# Changelog\n\n## [2.0.0] - 2024-02-01\n\n### Added\n- a\n\n#### Sub\n- b\n\n## [1.9.0] - 2024-01-01\n\n- old\n").getD 2 "")) b =
          false) ∧
      (sectionEnd (splitLinesJS
          "# Changelog\n\n## [2.0.0] - 2024-02-01\n\n### Added\n- a\n\n#### Sub\n- b\n\n## [1.9.0] - 2024-01-01\n\n- old\n") 2 =
          (splitLinesJS
          "# Changelog\n\n## [2.0.0] - 2024-02-01\n\n### Added\n- a\n\n#### Sub\n- b\n\n## [1.9.0] - 2024-01-01\n\n- old\n").length ∨
        ∃ b, (splitLinesJS
            "# Changelog\n\n## [2.0.0] - 2024-02-01\n\n### Added\n- a\n\n#### Sub\n- b\n\n## [1.9.0] - 2024-01-01\n\n- old\n")[sectionEnd
            (splitLinesJS
            "# Changelog\n\n## [2.0.0] - 2024-02-01\n\n### Added\n- a\n\n#### Sub\n- b\n\n## [1.9.0] - 2024-01-01\n\n- old\n") 2]? =
            some b ∧
          stopsSection (startLevelOf ((splitLinesJS
            "# Changelog\n\n## [2.0.0] - 2024-02-01\n\n### Added\n- a\n\n#### Sub\n- b\n\n## [1.9.0] - 2024-01-01\n\n- old\n").getD 2 "")) b =
            true) ∧
      extractChangelogSection
          "# Changelog\n\n## [2.0.0] - 2024-02-01\n\n### Added\n- a\n\n#### Sub\n- b\n\n## [1.9.0] - 2024-01-01\n\n- old\n"
          "2.0.0" =
        stripLinkRef (jsTrim (joinN (((splitLinesJS
          "# Changelog\n\n## [2.0.0] - 2024-02-01\n\n### Added\n- a\n\n#### Sub\n- b\n\n## [1.9.0] - 2024-01-01\n\n- old\n").drop 2).take
          (sectionEnd (splitLinesJS
          "# Changelog\n\n## [2.0.0] - 2024-02-01\n\n### Added\n- a\n\n#### Sub\n- b\n\n## [1.9.0] - 2024-01-01\n\n- old\n") 2 - 2))))) ∧
    sectionEnd (splitLinesJS
      "# Changelog\n\n## [2.0.0] - 2024-02-01\n\n### Added\n- a\n\n#### Sub\n- b\n\n## [1.9.0] - 2024-01-01\n\n- old\n") 2 = 10 ∧
    extractChangelogSection
        "# Changelog\n\n## [2.0.0] - 2024-02-01\n\n### Added\n- a\n\n#### Sub\n- b\n\n## [1.9.0] - 2024-01-01\n\n- old\n"
        "2.0.0" =
      "## [2.0.0] - 2024-02-01\n\n### Added\n- a\n\n#### Sub\n- b" ∧
    extractChangelogSection
        "# Changelog\n\n## [2.0.0] - 2024-02-01\n\n### Added\n- a\n\n#### Sub\n- b\n\n## [1.9.0] - 2024-01-01\n\n- old\n"
        "1.9.0" =
      "## [1.9.0] - 2024-01-01\n\n- old" :=
  ⟨by decide,
    C3_section_boundary
      "# Changelog\n\n## [2.0.0] - 2024-02-01\n\n### Added\n- a\n\n#### Sub\n- b\n\n## [1.9.0] - 2024-01-01\n\n- old\n"
      "2.0.0" 2 (by decide),
    by decide, rfl, rfl⟩

/-- C10: neither header pattern requires a delimiter after the version
token, so a request for `1.0.0` accepts the heading `## [1.0.0-rc.1]`; a
document whose first liberal match is that heading has its prerelease
section extracted, and the update rewrites that heading to
`## [1.0.0] - <today>`, silently discarding the `-rc.1` suffix. -/
theorem C10_prefix_collision (lines : List String) (today : String) (i : Nat)
    (hx : firstIdx? (hdrTest "1.0.0") lines = some i)
    (hline : lines[i]? = some "## [1.0.0-rc.1]") :
    hdrTest "1.0.0" "## [1.0.0-rc.1]" = true ∧
    vTestU "1.0.0" "## [1.0.0-rc.1]" = true ∧
    extractFromLines lines "1.0.0" = sectionAt lines i ∧
    (firstIdx? (vTestU "1.0.0") lines = some i →
      updateChangelogLines lines "1.0.0" today =
        ⟨lines.set i ("## [1.0.0] - " ++ today), false⟩) := by
  refine ⟨by decide, by decide, ?_, ?_⟩
  · unfold extractFromLines
    rw [show stripLowerV "1.0.0" = "1.0.0" from rfl, hx]
  · intro hv
    rw [update_version_branch lines "1.0.0" today
      (by rw [show stripLowerV "1.0.0" = "1.0.0" from rfl]; exact hv)]
    rw [show stripLowerV "1.0.0" = "1.0.0" from rfl]
    rw [getD_eq_of_getElem? hline]
    rw [show matchHdr true ("1.0.0" : String).data
        ("## [1.0.0-rc.1]" : String).data =
        some (['#', '#', ' '], ['['], ['1', '.', '0', '.', '0'], [],
          ['-', 'r', 'c', '.', '1', ']']) from by decide]
    rfl

/-- Witness for C10: the prerelease heading precedes an exact `## [1.0.0]`
heading; extraction returns the prerelease section and the update rewrites
the prerelease heading. -/
theorem C10_prefix_collision_witness :
    firstIdx? (hdrTest "1.0.0")
      ["# C", "", "## [1.0.0-rc.1]", "", "- rc stuff", "", "## [1.0.0]", "",
        "- real"] = some 2 ∧
    ["# C", "", "## [1.0.0-rc.1]", "", "- rc stuff", "", "## [1.0.0]", "",
        "- real"][2]? = some "## [1.0.0-rc.1]" ∧
    (hdrTest "1.0.0" "## [1.0.0-rc.1]" = true ∧
      vTestU "1.0.0" "## [1.0.0-rc.1]" = true ∧
      extractFromLines
        ["# C", "", "## [1.0.0-rc.1]", "", "- rc stuff", "", "## [1.0.0]",
          "", "- real"] "1.0.0" =
        sectionAt
          ["# C", "", "## [1.0.0-rc.1]", "", "- rc stuff", "", "## [1.0.0]",
            "", "- real"] 2 ∧
      (firstIdx? (vTestU "1.0.0")
          ["# C", "", "## [1.0.0-rc.1]", "", "- rc stuff", "", "## [1.0.0]",
            "", "- real"] = some 2 →
        updateChangelogLines
            ["# C", "", "## [1.0.0-rc.1]", "", "- rc stuff", "",
              "## [1.0.0]", "", "- real"] "1.0.0" "2025-01-01" =
          ⟨["# C", "", "## [1.0.0-rc.1]", "", "- rc stuff", "",
              "## [1.0.0]", "", "- real"].set 2
              ("## [1.0.0] - " ++ "2025-01-01"), false⟩)) ∧
    sectionAt
        ["# C", "", "## [1.0.0-rc.1]", "", "- rc stuff", "", "## [1.0.0]",
          "", "- real"] 2 = "## [1.0.0-rc.1]\n\n- rc stuff" ∧
    ["# C", "", "## [1.0.0-rc.1]", "", "- rc stuff", "", "## [1.0.0]", "",
        "- real"][6]? = some "## [1.0.0]" ∧ 2 < 6 ∧
    (["# C", "", "## [1.0.0-rc.1]", "", "- rc stuff", "", "## [1.0.0]", "",
        "- real"].set 2 ("## [1.0.0] - " ++ "2025-01-01")) =
      ["# C", "", "## [1.0.0] - 2025-01-01", "", "- rc stuff", "",
        "## [1.0.0]", "", "- real"] :=
  ⟨by decide, by decide,
    C10_prefix_collision
      ["# C", "", "## [1.0.0-rc.1]", "", "- rc stuff", "", "## [1.0.0]", "",
        "- real"] "2025-01-01" 2 (by decide) (by decide),
    by decide, by decide, by decide, by decide⟩

/-- C4 counterexample: the rewrite keeps the version token *as captured
from the document* with only a lowercase `v` stripped, so a heading
`## V1.0.0` updated with version `1.0.0` becomes `## [V1.0.0] - <today>`,
not the claimed canonical `## [1.0.0] - <today>`. -/
theorem C4_counterexample :
    (updateChangelogLines ["## V1.0.0"] "1.0.0" "2025-06-01").lines =
      ["## [V1.0.0] - 2025-06-01"] ∧
    (updateChangelogLines ["## V1.0.0"] "1.0.0" "2025-06-01").lines ≠
      ["## [1.0.0] - 2025-06-01"] := by
  exact ⟨by decide, by decide⟩

/-- C4 amended: when a line matches the version pattern, that single line is
rewritten to `<captured #-and-whitespace prefix>[<token>] - <today>`, where
`<token>` is the matched version token with one leading lowercase `v`
removed (an uppercase `V` prefix is carried over, not replaced by the
requested version); brackets, dates and trailing content are discarded and
the heading level is preserved.  When no version header matches but an
Unreleased header does (any level, brackets or case), that line is
rewritten the same way with the requested (v-stripped) version.  All other
lines are unchanged and in their original order. -/
theorem C4_amended (lines : List String) (versionArg today : String) :
    (∀ (i : Nat) (line : String) (g1 g2 g3 g4 g5 : List Char),
      firstIdx? (vTestU (stripLowerV versionArg)) lines = some i →
      lines[i]? = some line →
      matchHdr true (stripLowerV versionArg).data line.data =
        some (g1, g2, g3, g4, g5) →
      updateChangelogLines lines versionArg today =
        ⟨lines.set i (canonicalHeader g1 (stripLowerVL g3) today), false⟩ ∧
      line.data = g1 ++ g2 ++ g3 ++ g4 ++ g5 ∧
      (∃ hs ws, g1 = hs ++ ws ∧ hs = List.replicate hs.length '#' ∧
        1 ≤ hs.length ∧ hs.length ≤ 6 ∧ ws.all jsWs = true) ∧
      (g2 = ['['] ∨ g2 = []) ∧ (g4 = [']'] ∨ g4 = [])) ∧
    (∀ (i : Nat) (line : String) (g1 g2 g3 g4 g5 : List Char),
      firstIdx? (vTestU (stripLowerV versionArg)) lines = none →
      firstIdx? uTestU lines = some i →
      lines[i]? = some line →
      matchHdr false "Unreleased".data line.data =
        some (g1, g2, g3, g4, g5) →
      updateChangelogLines lines versionArg today =
        ⟨lines.set i
          (canonicalHeader g1 (stripLowerV versionArg).data today),
          false⟩) := by
  constructor
  · intro i line g1 g2 g3 g4 g5 hfind hline hm
    obtain ⟨hs, ws, opt, cs, hg1, hrep, h1n, h6n, hws, hg2, hg3, hopt, hci,
      hg4, hdot, hdecomp⟩ := matchHdr_sound hm
    refine ⟨?_, hdecomp, ⟨hs, ws, hg1, hrep, h1n, h6n, hws⟩, hg2, hg4⟩
    rw [update_version_branch lines versionArg today hfind]
    rw [getD_eq_of_getElem? hline, hm]
  · intro i line g1 g2 g3 g4 g5 hv hu hline hm
    rw [update_unreleased_branch lines versionArg today hv hu]
    rw [getD_eq_of_getElem? hline, hm]

/-- Witness for the amended C4: a `## v1.2.3` heading has its lowercase `v`
stripped, and an `## [Unreleased]` heading is converted to the requested
version; all other lines are untouched. -/
theorem C4_amended_witness :
    (firstIdx? (vTestU (stripLowerV "1.2.3"))
        ["# Changelog", "", "## v1.2.3", "", "- x"] = some 2 ∧
      ["# Changelog", "", "## v1.2.3", "", "- x"][2]? = some "## v1.2.3" ∧
      matchHdr true (stripLowerV "1.2.3").data ("## v1.2.3" : String).data =
        some (['#', '#', ' '], [], ['v', '1', '.', '2', '.', '3'], [], []) ∧
      updateChangelogLines ["# Changelog", "", "## v1.2.3", "", "- x"]
          "1.2.3" "2025-06-01" =
        ⟨["# Changelog", "", "## v1.2.3", "", "- x"].set 2
          (canonicalHeader ['#', '#', ' ']
            (stripLowerVL ['v', '1', '.', '2', '.', '3']) "2025-06-01"),
          false⟩) ∧
    (updateChangelogLines ["# Changelog", "", "## v1.2.3", "", "- x"]
        "1.2.3" "2025-06-01").lines =
      ["# Changelog", "", "## [1.2.3] - 2025-06-01", "", "- x"] ∧
    (firstIdx? (vTestU (stripLowerV "2.0.0"))
        ["# C", "", "## [Unreleased]", "", "- y"] = none ∧
      firstIdx? uTestU ["# C", "", "## [Unreleased]", "", "- y"] = some 2 ∧
      updateChangelogLines ["# C", "", "## [Unreleased]", "", "- y"]
          "2.0.0" "2025-06-01" =
        ⟨["# C", "", "## [Unreleased]", "", "- y"].set 2
          (canonicalHeader ['#', '#', ' '] (stripLowerV "2.0.0").data
            "2025-06-01"), false⟩) ∧
    (updateChangelogLines ["# C", "", "## [Unreleased]", "", "- y"]
        "2.0.0" "2025-06-01").lines =
      ["# C", "", "## [2.0.0] - 2025-06-01", "", "- y"] := by
  refine ⟨⟨by decide, by decide, by decide, ?_⟩, by decide,
    ⟨by decide, by decide, ?_⟩, by decide⟩
  · exact (((C4_amended ["# Changelog", "", "## v1.2.3", "", "- x"] "1.2.3"
      "2025-06-01").1 2 "## v1.2.3" ['#', '#', ' '] []
      ['v', '1', '.', '2', '.', '3'] [] [] (by decide) (by decide)
      (by decide))).1
  · exact (C4_amended ["# C", "", "## [Unreleased]", "", "- y"] "2.0.0"
      "2025-06-01").2 2 "## [Unreleased]" ['#', '#', ' '] ['[']
      ['U', 'n', 'r', 'e', 'l', 'e', 'a', 's', 'e', 'd'] [']'] []
      (by decide) (by decide) (by decide) (by decide)

/-- C5 counterexample: when an existing version header precedes the
document's first top-level `# ` title, the synthesized header is inserted
after the title and therefore lands at a *greater* index than the existing
older header — refuting the claimed strict ordering. -/
theorem C5_counterexample :
    (updateChangelogLines
        ["## [0.9.0] - 2020-01-01", "- old", "# Changelog", "text"]
        "1.1.0" "2025-01-01").lines =
      ["## [0.9.0] - 2020-01-01", "- old", "# Changelog", "",
        "## [1.1.0] - 2025-01-01", "", "### Added", "", "- Initial release",
        "", "text"] ∧
    firstIdx? (fun l => l == "## [1.1.0] - 2025-01-01")
      (updateChangelogLines
        ["## [0.9.0] - 2020-01-01", "- old", "# Changelog", "text"]
        "1.1.0" "2025-01-01").lines = some 4 ∧
    firstIdx? (vTestU "0.9.0")
      (updateChangelogLines
        ["## [0.9.0] - 2020-01-01", "- old", "# Changelog", "text"]
        "1.1.0" "2025-01-01").lines = some 0 ∧
    ¬(4 : Nat) < 0 := by
  exact ⟨by decide, by decide, by decide, by decide⟩

/-- C5 amended: with neither a version nor an Unreleased match, the update
splices the fixed seven-line section at the first non-blank line after the
first `# ` title (or at index 0 with no title); the new header sits at
`insertIndex + 1` and every pre-existing line at or after the insertion
point (in particular every older version header in the conventional layout
where headers follow the title) ends up strictly below the new header. -/
theorem C5_amended (lines : List String) (versionArg today : String)
    (hv : firstIdx? (vTestU (stripLowerV versionArg)) lines = none)
    (hu : firstIdx? uTestU lines = none) :
    updateChangelogLines lines versionArg today =
      ⟨lines.take (insertIndexOf lines) ++
        newSectionLines (stripLowerV versionArg) today ++
        lines.drop (insertIndexOf lines), true⟩ ∧
    insertIndexOf lines ≤ lines.length ∧
    (firstIdx? isTitleLine lines = none → insertIndexOf lines = 0) ∧
    (∀ t, firstIdx? isTitleLine lines = some t →
      t < insertIndexOf lines ∧
      (∀ m, t < m → m < insertIndexOf lines →
        blankLine (lines.getD m "") = true) ∧
      (insertIndexOf lines = lines.length ∨
        blankLine (lines.getD (insertIndexOf lines) "") = false)) ∧
    (updateChangelogLines lines versionArg today).lines[insertIndexOf
        lines + 1]? =
      some ("## [" ++ stripLowerV versionArg ++ "] - " ++ today) ∧
    (∀ j, insertIndexOf lines ≤ j →
      (updateChangelogLines lines versionArg today).lines[j + 7]? =
        lines[j]? ∧ insertIndexOf lines + 1 < j + 7) := by
  have hidx : insertIndexOf lines ≤ lines.length :=
    insertIndexOf_le_length lines
  have hrun := update_synth_branch lines versionArg today hv hu
  have htake : (lines.take (insertIndexOf lines)).length =
      insertIndexOf lines := List.length_take_of_le hidx
  have hlen2 : (lines.take (insertIndexOf lines) ++
      newSectionLines (stripLowerV versionArg) today).length =
      insertIndexOf lines + 7 := by
    simp [htake, newSectionLines]
  refine ⟨hrun, hidx, ?_, ?_, ?_, ?_⟩
  · intro h
    simp [insertIndexOf, h]
  · intro t ht
    have hidx_eq : insertIndexOf lines = skipBlanks lines (t + 1) := by
      simp [insertIndexOf, ht]
    have hge := skipBlanks_ge lines (t + 1)
    refine ⟨by omega, ?_, ?_⟩
    · intro m htm hmi
      exact skipBlanks_blank_range lines (t + 1) m (by omega)
        (by rw [← hidx_eq]; exact hmi)
    · by_cases hlt : insertIndexOf lines < lines.length
      · right
        rw [hidx_eq]
        exact skipBlanks_stop lines (t + 1) (by rw [← hidx_eq]; exact hlt)
      · left
        omega
  · rw [hrun]
    dsimp only
    rw [List.getElem?_append_left (by omega)]
    rw [List.getElem?_append_right (by omega)]
    rw [htake, show insertIndexOf lines + 1 - insertIndexOf lines = 1 from
      by omega]
    rfl
  · intro j hj
    rw [hrun]
    dsimp only
    constructor
    · rw [List.getElem?_append_right (by omega)]
      rw [hlen2, show j + 7 - (insertIndexOf lines + 7) =
        j - insertIndexOf lines from by omega]
      rw [List.getElem?_drop, show insertIndexOf lines +
        (j - insertIndexOf lines) = j from by omega]
    · omega

/-- Witness for the amended C5 on a conventional document: the section is
inserted right after the title, the new header sits at index 3 and the
pre-existing `1.0.0` header is pushed to index 9, below the new header. -/
theorem C5_amended_witness :
    (firstIdx? (vTestU (stripLowerV "1.1.0"))
        ["# Changelog", "", "## [1.0.0] - 2024-01-01", "", "- Initial"] =
      none ∧
    firstIdx? uTestU
        ["# Changelog", "", "## [1.0.0] - 2024-01-01", "", "- Initial"] =
      none) ∧
    (updateChangelogLines
        ["# Changelog", "", "## [1.0.0] - 2024-01-01", "", "- Initial"]
        "1.1.0" "2025-06-01" =
      ⟨["# Changelog", "", "## [1.0.0] - 2024-01-01", "",
          "- Initial"].take (insertIndexOf
            ["# Changelog", "", "## [1.0.0] - 2024-01-01", "",
              "- Initial"]) ++
        newSectionLines (stripLowerV "1.1.0") "2025-06-01" ++
        ["# Changelog", "", "## [1.0.0] - 2024-01-01", "",
          "- Initial"].drop (insertIndexOf
            ["# Changelog", "", "## [1.0.0] - 2024-01-01", "",
              "- Initial"]), true⟩) ∧
    insertIndexOf
      ["# Changelog", "", "## [1.0.0] - 2024-01-01", "", "- Initial"] = 2 ∧
    (updateChangelogLines
        ["# Changelog", "", "## [1.0.0] - 2024-01-01", "", "- Initial"]
        "1.1.0" "2025-06-01").lines =
      ["# Changelog", "", "", "## [1.1.0] - 2025-06-01", "", "### Added",
        "", "- Initial release", "", "## [1.0.0] - 2024-01-01", "",
        "- Initial"] ∧
    firstIdx? (vTestU "1.0.0")
      (updateChangelogLines
        ["# Changelog", "", "## [1.0.0] - 2024-01-01", "", "- Initial"]
        "1.1.0" "2025-06-01").lines = some 9 ∧
    (2 + 1 : Nat) < 9 :=
  ⟨⟨by decide, by decide⟩,
    (C5_amended
      ["# Changelog", "", "## [1.0.0] - 2024-01-01", "", "- Initial"]
      "1.1.0" "2025-06-01" (by decide) (by decide)).1,
    by decide, by decide, by decide, by decide⟩

/-- C6 counterexample: at the text level the operation is not idempotent on
every document — a carriage return not followed by a line feed survives the
first pass (`split(/\r?\n/)` keeps it, `join("\n")` places it before a
`\n`) and is then swallowed by the second pass's split, so the second
output text differs from the first. -/
theorem C6_counterexample :
    (updateChangelogText "x\r\r\n" "2.0.0" "2025-01-01").1 =
      "\n## [2.0.0] - 2025-01-01\n\n### Added\n\n- Initial release\n\nx\r\n" ∧
    (updateChangelogText (updateChangelogText "x\r\r\n" "2.0.0"
        "2025-01-01").1 "2.0.0" "2025-01-01").1 =
      "\n## [2.0.0] - 2025-01-01\n\n### Added\n\n- Initial release\n\nx\n" ∧
    (updateChangelogText (updateChangelogText "x\r\r\n" "2.0.0"
        "2025-01-01").1 "2.0.0" "2025-01-01").1 ≠
      (updateChangelogText "x\r\r\n" "2.0.0" "2025-01-01").1 := by
  exact ⟨by decide, by decide, by decide⟩

/-- C6 amended: updating a `## v2.0.0` heading with version `2.0.0`
produces `## [2.0.0] - <today>`, and reapplying the update with version
`2.0.0` to its own output text leaves the text unchanged for every
document none of whose lines — as produced by the `split(/\r?\n/)` read —
ends in a carriage return (for any date string free of line terminators);
a line that does end in a carriage return is instead normalised away by
the second pass's split, as in the counterexample. -/
theorem C6_amended :
    (∀ today : String,
      (updateChangelogLines ["## v2.0.0"] "2.0.0" today).lines =
        ["## [2.0.0] - " ++ today]) ∧
    (∀ documentText today : String,
      today.data.all jsDot = true →
      (∀ l ∈ splitLinesJS documentText,
        l.data.getLast? ≠ some '\r') →
      (updateChangelogText (updateChangelogText documentText "2.0.0"
          today).1 "2.0.0" today).1 =
        (updateChangelogText documentText "2.0.0" today).1) := by
  constructor
  · intro today
    rw [@update_version_branch ["## v2.0.0"] "2.0.0" today 0
      (by rw [strip200]; decide)]
    rw [strip200]
    rw [show (["## v2.0.0"] : List String).getD 0 "" = "## v2.0.0" from rfl]
    rw [show matchHdr true ("2.0.0" : String).data
        ("## v2.0.0" : String).data =
        some (['#', '#', ' '], [], ['v', '2', '.', '0', '.', '0'], [], [])
        from by decide]
    rfl
  · intro documentText today htoday hgood
    exact updateText_idem_200 documentText today htoday hgood

/-- Witness for the amended C6: the `## v2.0.0` normalisation, and
text-level idempotence on a carriage-return-free document and on one whose
carriage return is not at the end of a line. -/
theorem C6_amended_witness :
    ("2025-01-01" : String).data.all jsDot = true ∧
    (∀ l ∈ splitLinesJS "# Changelog\n\n## [Unreleased]\n\n- x\n",
      l.data.getLast? ≠ some '\r') ∧
    (∀ l ∈ splitLinesJS "x\ry", l.data.getLast? ≠ some '\r') ∧
    (updateChangelogLines ["## v2.0.0"] "2.0.0" "2025-01-01").lines =
      ["## [2.0.0] - " ++ "2025-01-01"] ∧
    (updateChangelogText (updateChangelogText
        "# Changelog\n\n## [Unreleased]\n\n- x\n" "2.0.0"
        "2025-01-01").1 "2.0.0" "2025-01-01").1 =
      (updateChangelogText "# Changelog\n\n## [Unreleased]\n\n- x\n"
        "2.0.0" "2025-01-01").1 ∧
    (updateChangelogText (updateChangelogText "x\ry" "2.0.0"
        "2025-01-01").1 "2.0.0" "2025-01-01").1 =
      (updateChangelogText "x\ry" "2.0.0" "2025-01-01").1 :=
  ⟨by decide, by decide, by decide, C6_amended.1 "2025-01-01",
    C6_amended.2 "# Changelog\n\n## [Unreleased]\n\n- x\n" "2025-01-01"
      (by decide) (by decide),
    C6_amended.2 "x\ry" "2025-01-01" (by decide) (by decide)⟩

end ReleaseInit
